import Mathlib

/-!
# Verification of the LinkValidator link-checking engine

A shallow embedding of `LinkValidator.py` in Lean 4.  URLs are modelled as
`List Char`; the Python library functions the source calls
(`urllib.parse.urlparse`, `urlunparse`, `parse_qs`, `urlencode`,
`str.replace`, dict operations) are embedded faithfully from their CPython
3.11 sources, restricted to ASCII text (CPython's percent-escapes decode
UTF-8 byte sequences; on ASCII data, which is the scope of this development,
the byte-level and character-level readings coincide).  Exceptions raised by
the probe (`requests.get`) are modelled by an oracle returning a
`ProbeResult`; the mutable dicts (`verified_links`, `status_codes`, the
dataframe column) are threaded as explicit association lists with Python's
dict update semantics (in-place update of an existing key, append of a new
key).
-/

/-- Python `str` restricted to ASCII, as a list of characters. -/
abbrev Str := List Char

/-- `d.get(k)`: association-list lookup with Python dict semantics
(the key occurs at most once). -/
def dictGet? {α β : Type} [DecidableEq α] (k : α) : List (α × β) → Option β
  | [] => none
  | (k', v) :: rest => if k' = k then some v else dictGet? k rest

/-- `d[k] = v`: update an existing key in place, else append at the end,
exactly as a Python dict assignment behaves with respect to iteration
order. -/
def dictSet {α β : Type} [DecidableEq α] (k : α) (v : β) : List (α × β) → List (α × β)
  | [] => [(k, v)]
  | (k', v') :: rest => if k' = k then (k', v) :: rest else (k', v') :: dictSet k v rest

/-- `d[k] = d.get(k, 0) + 1`: the histogram update
`status_codes[c] = status_codes.get(c, 0) + 1` of the source. -/
def dictIncr (k : Nat) : List (Nat × Nat) → List (Nat × Nat)
  | [] => [(k, 1)]
  | (k', n) :: rest => if k' = k then (k', n + 1) :: rest else (k', n) :: dictIncr k rest

/-- `del d[k]`: remove the (unique) entry for `k`. -/
def dictDelete {β : Type} (k : Str) : List (Str × β) → List (Str × β)
  | [] => []
  | (k', v) :: rest => if k' = k then rest else (k', v) :: dictDelete k rest

/-- `d.setdefault(k, []).append(v)` as used by CPython's `parse_qs` to group
query pairs: append to an existing key's list, else add the key at the
end. -/
def dictAppend (k : Str) (v : Str) : List (Str × List Str) → List (Str × List Str)
  | [] => [(k, [v])]
  | (k', vs) :: rest => if k' = k then (k', vs ++ [v]) :: rest else (k', vs) :: dictAppend k v rest

/-- Total count of a status-code histogram. -/
def histTotal (h : List (Nat × Nat)) : Nat := (h.map Prod.snd).sum

/-! ## CPython `urllib.parse` embedding (ASCII scope) -/

/-- The characters CPython's `urlsplit` accepts inside a scheme name
(`scheme_chars` in `urllib/parse.py`). -/
def scheme_chars : Str :=
  "abcdefghijklmnopqrstuvwxyzABCDEFGHIJKLMNOPQRSTUVWXYZ0123456789+-.".data

/-- WHATWG C0-control-or-space class, stripped from the front of a URL by
CPython 3.11's `urlsplit`. -/
def isC0Space (c : Char) : Bool := c.toNat ≤ 32

/-- The WHATWG unsafe bytes (tab, CR, LF) removed everywhere by CPython
3.11's `urlsplit`. -/
def isUnsafeUrlByte (c : Char) : Bool := c = '\t' || c = '\r' || c = '\n'

/-- `url[0].isascii() and url[0].isalpha() and all(c in scheme_chars for c in url[:i])`
applied to the candidate scheme prefix `pre = url[:i]` (nonempty by `i > 0`). -/
def isSchemeName (s : Str) : Bool :=
  match s with
  | [] => false
  | c :: _ => c.isAlpha && s.all fun c => decide (c ∈ scheme_chars)

/-- Python `str.lower()` on ASCII text. -/
def lowerStr (s : Str) : Str := s.map Char.toLower

/-- The delimiters at which `_splitnetloc` stops (`'/?#'`). -/
def netlocDelim (c : Char) : Bool := c = '/' || c = '?' || c = '#'

/-- `url.split(sep, 1)` recast as a pair: text before the first `sep`, and
text after it ([] when `sep` is absent, matching Python's guarded
`if sep in url: url, rest = url.split(sep, 1)` idiom where the second
component defaults to the empty string). -/
def splitOnFirst (sep : Char) (s : Str) : Str × Str :=
  (s.takeWhile (· ≠ sep), (s.dropWhile (· ≠ sep)).drop 1)

/-- The five components returned by `urlsplit`.  The source only ever
rebuilds a parsed URL with `urlunparse(parsed._replace(query=...))`; since
`urlparse`/`urlunparse` split the path's `;params` suffix off and glue it
back verbatim, the six-component `ParseResult` round-trips identically to
this five-component model with `params` kept inside `path`. -/
structure UrlParts where
  scheme : Str
  netloc : Str
  path : Str
  query : Str
  fragment : Str
deriving DecidableEq

/-- The scheme-splitting step of `urlsplit`: `i = url.find(':')`, and if
`i > 0` and `url[:i]` is a valid scheme name, return
`(url[:i].lower(), url[i+1:])`, else no scheme. -/
def splitScheme (url : Str) : Str × Str :=
  if (url.takeWhile (· ≠ ':')).length < url.length && isSchemeName (url.takeWhile (· ≠ ':')) then
    (lowerStr (url.takeWhile (· ≠ ':')), url.drop ((url.takeWhile (· ≠ ':')).length + 1))
  else ([], url)

/-- The netloc-splitting step of `urlsplit`: when the remainder starts with
`'//'`, `_splitnetloc(url, 2)` cuts at the earliest of `'/?#'`. -/
def splitNetloc (url : Str) : Str × Str :=
  if url.take 2 = "//".data then
    ((url.drop 2).takeWhile (fun c => !netlocDelim c),
     (url.drop 2).dropWhile (fun c => !netlocDelim c))
  else ([], url)

/-- CPython 3.11 `urlsplit` (ASCII scope; the IPv6-bracket and netloc
validation that only raise on malformed bracketed hosts are outside the
model's scope).  Steps, in source order: WHATWG lstrip and unsafe-byte
removal; scheme split at the first `':'` when the prefix is a valid scheme
name (lower-cased); netloc split when the remainder starts with `'//'`;
fragment split at the first `'#'`; query split at the first `'?'`. -/
def urlsplit (url0 : Str) : UrlParts :=
  let url := (url0.dropWhile isC0Space).filter (fun c => !isUnsafeUrlByte c)
  let s := splitScheme url
  let n := splitNetloc s.2
  let f := splitOnFirst '#' n.2
  let pq := splitOnFirst '?' f.1
  ⟨s.1, n.1, pq.1, pq.2, f.2⟩

/-- CPython's `uses_netloc` scheme list (verbatim, duplicates included). -/
def uses_netloc : List Str :=
  [[], "ftp".data, "http".data, "gopher".data, "nntp".data, "telnet".data,
   "imap".data, "wais".data, "file".data, "mms".data, "https".data, "shttp".data,
   "snews".data, "prospero".data, "rtsp".data, "rtsps".data, "rtspu".data, "rsync".data,
   "gopher".data, "rtsp".data, "rtsps".data, "rtspu".data, "sip".data, "sips".data]

/-- CPython 3.11 `urlunsplit`. -/
def urlunsplit (p : UrlParts) : Str :=
  let url := p.path
  let url :=
    if p.netloc ≠ [] ∨ (p.scheme ≠ [] ∧ p.scheme ∈ uses_netloc ∧ url.take 2 ≠ "//".data) then
      "//".data ++ p.netloc ++ (if url ≠ [] ∧ url.take 1 ≠ "/".data then '/' :: url else url)
    else url
  let url := if p.scheme ≠ [] then p.scheme ++ ':' :: url else url
  let url := if p.query ≠ [] then url ++ '?' :: p.query else url
  if p.fragment ≠ [] then url ++ '#' :: p.fragment else url

/-- `shorten_url` from the source:
`f"{parsed_url.scheme}://{parsed_url.netloc}/"`. -/
def shorten_url (link : Str) : Str :=
  let parsed_url := urlsplit link
  parsed_url.scheme ++ "://".data ++ parsed_url.netloc ++ "/".data

example : urlsplit "https://ex.com/a?b=2#f".data =
    ⟨"https".data, "ex.com".data, "/a".data, "b=2".data, "f".data⟩ := by decide

example : shorten_url "https://c.com/404page".data = "https://c.com/".data := by decide

example : shorten_url "//ex.com/x".data = "://ex.com/".data := by decide

example : shorten_url "://ex.com/".data = ":///".data := by decide

example : shorten_url ":///".data = ":///".data := by decide

example : urlsplit "HTTP://ex.com/?igshid=1&b=2".data =
    ⟨"http".data, "ex.com".data, "/".data, "igshid=1&b=2".data, []⟩ := by decide

/-! ## List helpers -/

theorem takeWhile_append_all {p : Char → Bool} :
    ∀ {l₁ : Str}, (∀ a ∈ l₁, p a = true) → ∀ l₂ : Str,
      (l₁ ++ l₂).takeWhile p = l₁ ++ l₂.takeWhile p
  | [], _, _ => rfl
  | a :: l₁, h, l₂ => by
    have ha : p a = true := h a (by simp)
    simp only [List.cons_append, List.takeWhile_cons, ha, if_true]
    rw [takeWhile_append_all (fun b hb => h b (by simp [hb])) l₂]

theorem dropWhile_append_all {p : Char → Bool} :
    ∀ {l₁ : Str}, (∀ a ∈ l₁, p a = true) → ∀ l₂ : Str,
      (l₁ ++ l₂).dropWhile p = l₂.dropWhile p
  | [], _, _ => rfl
  | a :: l₁, h, l₂ => by
    have ha : p a = true := h a (by simp)
    simp only [List.cons_append, List.dropWhile_cons, ha, if_true]
    exact dropWhile_append_all (fun b hb => h b (by simp [hb])) l₂

theorem takeWhile_eq_self_of_all {p : Char → Bool} {l : Str}
    (h : ∀ a ∈ l, p a = true) : l.takeWhile p = l := by
  have := takeWhile_append_all h ([] : Str)
  simpa using this

theorem dropWhile_eq_nil_of_all {p : Char → Bool} {l : Str}
    (h : ∀ a ∈ l, p a = true) : l.dropWhile p = [] := by
  have := dropWhile_append_all h ([] : Str)
  simpa using this

theorem splitOnFirst_of_not_mem {sep : Char} {s : Str} (h : sep ∉ s) :
    splitOnFirst sep s = (s, []) := by
  unfold splitOnFirst
  rw [takeWhile_eq_self_of_all (fun a ha => by
        simp only [decide_eq_true_eq]; rintro rfl; exact h ha),
      dropWhile_eq_nil_of_all (fun a ha => by
        simp only [decide_eq_true_eq]; rintro rfl; exact h ha)]
  rfl

/-! ## Facts about scheme characters (decided over the concrete list) -/

theorem scheme_chars_facts : ∀ c ∈ scheme_chars,
    isC0Space c = false ∧ isUnsafeUrlByte c = false ∧ c ≠ ':' ∧
      Char.toLower c ∈ scheme_chars ∧ Char.toLower (Char.toLower c) = Char.toLower c ∧
      (c.isAlpha = true → (Char.toLower c).isAlpha = true) := by decide

theorem isSchemeName_mem {s : Str} (hs : isSchemeName s = true) :
    ∀ a ∈ s, a ∈ scheme_chars := by
  cases s with
  | nil => simp [isSchemeName] at hs
  | cons c t =>
    simp only [isSchemeName, Bool.and_eq_true, List.all_eq_true] at hs
    exact fun a ha => of_decide_eq_true (hs.2 a ha)

theorem isSchemeName_lower {s : Str} (hs : isSchemeName s = true) :
    isSchemeName (lowerStr s) = true ∧ lowerStr (lowerStr s) = lowerStr s := by
  have hmem := isSchemeName_mem hs
  cases s with
  | nil => simp [isSchemeName] at hs
  | cons c t =>
    simp only [isSchemeName, Bool.and_eq_true, List.all_eq_true] at hs
    have hc : c ∈ scheme_chars := hmem c (by simp)
    have h2 : ∀ a ∈ lowerStr (c :: t), decide (a ∈ scheme_chars) = true := by
      intro a ha
      simp only [lowerStr, List.mem_map] at ha
      obtain ⟨b, hb, rfl⟩ := ha
      exact decide_eq_true ((scheme_chars_facts b (hmem b hb)).2.2.2.1)
    refine ⟨?_, ?_⟩
    · have hcons : lowerStr (c :: t) = Char.toLower c :: lowerStr t := rfl
      rw [hcons]
      simp only [isSchemeName, Bool.and_eq_true, List.all_eq_true]
      exact ⟨(scheme_chars_facts c hc).2.2.2.2.2 hs.1,
        fun a ha => h2 a (by rw [hcons]; exact ha)⟩
    · simp only [lowerStr, List.map_map]
      exact List.map_congr_left fun a ha =>
        show Char.toLower (Char.toLower a) = Char.toLower a from
          (scheme_chars_facts a (hmem a ha)).2.2.2.2.1

/-! ## Re-parsing the output of `shorten_url` -/

theorem splitScheme_valid (sch r : Str) (hs : isSchemeName sch = true) :
    splitScheme (sch ++ ':' :: r) = (lowerStr sch, r) := by
  have hmem := isSchemeName_mem hs
  have htw : (sch ++ ':' :: r).takeWhile (· ≠ ':') = sch := by
    rw [takeWhile_append_all (fun a ha => by
          simp only [decide_eq_true_eq]
          exact (scheme_chars_facts a (hmem a ha)).2.2.1) (':' :: r)]
    simp [List.takeWhile_cons]
  have hlen : sch.length < (sch ++ ':' :: r).length := by simp
  have hdrop : (sch ++ ':' :: r).drop (sch.length + 1) = r :=
    List.drop_append 1
  simp only [splitScheme]
  rw [htw, hdrop, if_pos (by simp [hlen, hs])]

theorem splitScheme_colon_head (r : Str) : splitScheme (':' :: r) = ([], ':' :: r) := by
  simp [splitScheme, List.takeWhile_cons, isSchemeName]

theorem splitNetloc_slashes (nl r : Str) (hnl : ∀ c ∈ nl, netlocDelim c = false)
    (hr : r ≠ [] → netlocDelim (r.headI) = true) :
    splitNetloc ('/' :: '/' :: (nl ++ r)) = (nl, r) := by
  have hall : ∀ a ∈ nl, (!netlocDelim a) = true := fun a ha => by simp [hnl a ha]
  unfold splitNetloc
  rw [if_pos (by simp)]
  simp only [List.drop_succ_cons, List.drop_zero]
  rw [takeWhile_append_all hall r, dropWhile_append_all hall r]
  cases r with
  | nil => simp
  | cons c t =>
    have := hr (by simp)
    simp only [List.headI] at this
    simp [List.takeWhile_cons, List.dropWhile_cons, this]

theorem splitScheme_snd_subset (u : Str) : (splitScheme u).2 ⊆ u := by
  unfold splitScheme
  split
  · exact List.drop_subset _ _
  · exact fun a ha => ha

theorem splitNetloc_fst_subset (u : Str) : (splitNetloc u).1 ⊆ u := by
  unfold splitNetloc
  split
  · exact fun a ha => List.drop_subset _ _ (List.takeWhile_subset _ ha)
  · exact fun a ha => by simp at ha

theorem splitNetloc_fst_nondelim (u : Str) :
    ∀ c ∈ (splitNetloc u).1, netlocDelim c = false := by
  unfold splitNetloc
  split
  · intro c hc
    have := List.mem_takeWhile_imp hc
    simpa using this
  · intro c hc
    simp at hc

theorem urlsplit_netloc_nondelim (u : Str) :
    ∀ c ∈ (urlsplit u).netloc, netlocDelim c = false := by
  intro c hc
  exact splitNetloc_fst_nondelim _ c hc

theorem urlsplit_netloc_clean (u : Str) :
    ∀ c ∈ (urlsplit u).netloc, isUnsafeUrlByte c = false := by
  intro c hc
  have h2 : c ∈ (u.dropWhile isC0Space).filter (fun c => !isUnsafeUrlByte c) :=
    splitScheme_snd_subset _ (splitNetloc_fst_subset _ hc)
  have := List.of_mem_filter h2
  simpa using this

theorem splitScheme_fst_spec (u : Str) :
    (splitScheme u).1 = [] ∨
      (isSchemeName (splitScheme u).1 = true ∧
        lowerStr (splitScheme u).1 = (splitScheme u).1) := by
  unfold splitScheme
  split
  all_goals rename_i hcond
  · right
    rw [Bool.and_eq_true] at hcond
    exact isSchemeName_lower hcond.2
  · left
    rfl

theorem urlsplit_scheme_spec (u : Str) :
    (urlsplit u).scheme = [] ∨
      (isSchemeName (urlsplit u).scheme = true ∧
        lowerStr (urlsplit u).scheme = (urlsplit u).scheme) :=
  splitScheme_fst_spec _

theorem splitNetloc_no {u : Str} (h : u.take 2 ≠ "//".data) :
    splitNetloc u = ([], u) := by
  unfold splitNetloc
  rw [if_neg h]

theorem clean_id {l : Str} (h0 : l = [] ∨ isC0Space l.headI = false)
    (hu : ∀ a ∈ l, isUnsafeUrlByte a = false) :
    (l.dropWhile isC0Space).filter (fun c => !isUnsafeUrlByte c) = l := by
  cases l with
  | nil => rfl
  | cons c t =>
    rcases h0 with h0 | h0
    · cases h0
    · simp only [List.headI] at h0
      rw [List.dropWhile_cons, if_neg (by simp [h0])]
      exact List.filter_eq_self.mpr fun a ha => by simp [hu a ha]

theorem urlsplit_stages {u : Str}
    (hclean : (u.dropWhile isC0Space).filter (fun c => !isUnsafeUrlByte c) = u) :
    urlsplit u = ⟨(splitScheme u).1, (splitNetloc (splitScheme u).2).1,
      (splitOnFirst '?' (splitOnFirst '#' (splitNetloc (splitScheme u).2).2).1).1,
      (splitOnFirst '?' (splitOnFirst '#' (splitNetloc (splitScheme u).2).2).1).2,
      (splitOnFirst '#' (splitNetloc (splitScheme u).2).2).2⟩ := by
  unfold urlsplit
  rw [hclean]

theorem urlsplit_base (sch nl : Str) (hs : isSchemeName sch = true)
    (hlow : lowerStr sch = sch) (hnl : ∀ c ∈ nl, netlocDelim c = false)
    (hnlu : ∀ c ∈ nl, isUnsafeUrlByte c = false) :
    urlsplit (sch ++ "://".data ++ nl ++ "/".data) = ⟨sch, nl, "/".data, [], []⟩ := by
  have hmem := isSchemeName_mem hs
  have hshape : sch ++ "://".data ++ nl ++ "/".data
      = sch ++ ':' :: ('/' :: '/' :: (nl ++ ['/'])) := by simp
  obtain ⟨c, t, hct⟩ : ∃ c t, sch = c :: t := by
    cases sch with
    | nil => simp [isSchemeName] at hs
    | cons c t => exact ⟨c, t, rfl⟩
  rw [hshape]
  have hclean : ((sch ++ ':' :: ('/' :: '/' :: (nl ++ ['/']))).dropWhile
      isC0Space).filter (fun c => !isUnsafeUrlByte c)
      = sch ++ ':' :: ('/' :: '/' :: (nl ++ ['/'])) := by
    apply clean_id
    · right
      rw [hct]
      simpa using (scheme_chars_facts c (hmem c (by simp [hct]))).1
    · intro a ha
      simp only [List.mem_append, List.mem_cons, List.mem_singleton,
        List.not_mem_nil, or_false] at ha
      rcases ha with ha | rfl | rfl | rfl | ha | rfl
      · exact (scheme_chars_facts a (hmem a ha)).2.1
      · decide
      · decide
      · decide
      · exact hnlu a ha
      · decide
  rw [urlsplit_stages hclean]
  have hA : splitScheme (sch ++ ':' :: ('/' :: '/' :: (nl ++ ['/'])))
      = (sch, '/' :: '/' :: (nl ++ ['/'])) := by
    rw [splitScheme_valid _ _ hs, hlow]
  have hB : splitNetloc ('/' :: '/' :: (nl ++ ['/'])) = (nl, ['/']) := by
    exact splitNetloc_slashes nl ['/'] hnl (fun _ => by decide)
  rw [hA, hB]
  rfl

theorem urlsplit_base_empty (nl : Str) (hnl : ∀ c ∈ nl, netlocDelim c = false)
    (hnlu : ∀ c ∈ nl, isUnsafeUrlByte c = false) :
    urlsplit ("://".data ++ nl ++ "/".data)
      = ⟨[], [], "://".data ++ nl ++ "/".data, [], []⟩ := by
  have hshape : "://".data ++ nl ++ "/".data
      = ':' :: '/' :: '/' :: (nl ++ ['/']) := by simp
  rw [hshape]
  have hclean : ((':' :: '/' :: '/' :: (nl ++ ['/'])).dropWhile
      isC0Space).filter (fun c => !isUnsafeUrlByte c)
      = ':' :: '/' :: '/' :: (nl ++ ['/']) := by
    apply clean_id
    · right
      rfl
    · intro a ha
      simp only [List.mem_append, List.mem_cons, List.mem_singleton,
        List.not_mem_nil, or_false] at ha
      rcases ha with rfl | rfl | rfl | ha | rfl
      · decide
      · decide
      · decide
      · exact hnlu a ha
      · decide
  rw [urlsplit_stages hclean]
  have hA : splitScheme (':' :: '/' :: '/' :: (nl ++ ['/']))
      = ([], ':' :: '/' :: '/' :: (nl ++ ['/'])) := splitScheme_colon_head _
  have hB : splitNetloc (':' :: '/' :: '/' :: (nl ++ ['/']))
      = ([], ':' :: '/' :: '/' :: (nl ++ ['/'])) :=
    splitNetloc_no (by simp)
  have hno : ∀ sep : Char, netlocDelim sep = true → sep ≠ ':' → sep ≠ '/' →
      sep ∉ ':' :: '/' :: '/' :: (nl ++ ['/']) := by
    intro sep hsep h1 h2 hmem
    simp only [List.mem_cons, List.mem_append, List.mem_singleton,
      List.not_mem_nil, or_false] at hmem
    rcases hmem with rfl | rfl | rfl | hmem | rfl
    · exact h1 rfl
    · exact h2 rfl
    · exact h2 rfl
    · rw [hnl sep hmem] at hsep
      cases hsep
    · exact h2 rfl
  have hC : splitOnFirst '#' (':' :: '/' :: '/' :: (nl ++ ['/']))
      = (':' :: '/' :: '/' :: (nl ++ ['/']), []) :=
    splitOnFirst_of_not_mem (hno '#' (by decide) (by decide) (by decide))
  have hD : splitOnFirst '?' (':' :: '/' :: '/' :: (nl ++ ['/']))
      = (':' :: '/' :: '/' :: (nl ++ ['/']), []) :=
    splitOnFirst_of_not_mem (hno '?' (by decide) (by decide) (by decide))
  rw [hA, hB, hC, hD]

theorem shorten_url_eq (u : Str) : shorten_url u
    = (urlsplit u).scheme ++ "://".data ++ (urlsplit u).netloc ++ "/".data := rfl

/-- One application of `shorten_url` either reaches a fixed point of a second
application or collapses to the degenerate base `":///"` (which happens
exactly when the input has no parseable scheme). -/
theorem shorten_cases (u : Str) :
    shorten_url (shorten_url u) = shorten_url u ∨
      shorten_url (shorten_url u) = ":///".data := by
  rcases urlsplit_scheme_spec u with h0 | ⟨hs, hlow⟩
  · right
    rw [shorten_url_eq u, h0, List.nil_append]
    have hb := urlsplit_base_empty (urlsplit u).netloc
      (urlsplit_netloc_nondelim u) (urlsplit_netloc_clean u)
    rw [shorten_url_eq, hb]
    rfl
  · left
    have hb := urlsplit_base (urlsplit u).scheme (urlsplit u).netloc hs hlow
      (urlsplit_netloc_nondelim u) (urlsplit_netloc_clean u)
    rw [shorten_url_eq u, shorten_url_eq
      ((urlsplit u).scheme ++ "://".data ++ (urlsplit u).netloc ++ "/".data), hb]

/-- A third application of `shorten_url` never changes the result of a
second one. -/
theorem shorten3 (u : Str) :
    shorten_url (shorten_url (shorten_url u)) = shorten_url (shorten_url u) := by
  rcases shorten_cases u with h | h
  · rw [h, h]
  · rw [h]
    decide

theorem shorten_idem_of_scheme {u : Str} (h : (urlsplit u).scheme ≠ []) :
    shorten_url (shorten_url u) = shorten_url u := by
  rcases urlsplit_scheme_spec u with h0 | ⟨hs, hlow⟩
  · exact absurd h0 h
  · have hb := urlsplit_base (urlsplit u).scheme (urlsplit u).netloc hs hlow
      (urlsplit_netloc_nondelim u) (urlsplit_netloc_clean u)
    rw [shorten_url_eq u, shorten_url_eq
      ((urlsplit u).scheme ++ "://".data ++ (urlsplit u).netloc ++ "/".data), hb]

/-- Measure for the recursion in `check_link_status`: the number of further
`shorten_url` applications after which the value stops changing (at most 2,
by `shorten3`). -/
def shortenDepth (u : Str) : Nat :=
  if shorten_url u = u then 0
  else if shorten_url (shorten_url u) = shorten_url u then 1
  else 2

theorem shortenDepth_lt {u : Str} (h : shorten_url u ≠ u) :
    shortenDepth (shorten_url u) < shortenDepth u := by
  unfold shortenDepth
  rw [if_neg h]
  by_cases h2 : shorten_url (shorten_url u) = shorten_url u
  · rw [if_pos h2, if_pos h2]
    exact Nat.zero_lt_one
  · rw [if_neg h2, if_neg h2, if_pos (shorten3 u)]
    exact Nat.one_lt_two

theorem shortenDepth_le_one_of_idem {u : Str}
    (h : shorten_url (shorten_url u) = shorten_url u) : shortenDepth u ≤ 1 := by
  unfold shortenDepth
  by_cases h1 : shorten_url u = u
  · rw [if_pos h1]
    exact Nat.zero_le 1
  · rw [if_neg h1, if_pos h]

theorem shortenDepth_le_two (u : Str) : shortenDepth u ≤ 2 := by
  unfold shortenDepth
  by_cases h1 : shorten_url u = u
  · rw [if_pos h1]
    exact Nat.zero_le 2
  · rw [if_neg h1]
    by_cases h2 : shorten_url (shorten_url u) = shorten_url u
    · rw [if_pos h2]
      exact Nat.le_of_lt Nat.one_lt_two
    · rw [if_neg h2]

/-! ## The link checker -/

/-- What one `requests.get(link, ...)` call is observed to do: return an
HTTP status code, raise a `requests.exceptions.RequestException`
(transport failure), or raise any other exception (an unexpected
processing error). -/
inductive ProbeResult where
  | status (code : Nat)
  | transportError
  | unexpected
deriving DecidableEq

/-- The literal `"Working"` recorded in `verified_links`. -/
def Working : Str := "Working".data

/-- The literal `"Not Working"` recorded in `verified_links`. -/
def NotWorking : Str := "Not Working".data

/-- The mutable state `check_link_status` touches: the `verified_links`
cache, the `status_codes` histogram, and the dataframe column (cells of
`df[column_name]`, keyed by row index).  `probes` and `retried` are ghost
instrumentation (they influence nothing): `probes` counts `requests.get`
calls, `retried` counts probes whose 404 answer triggered the
shortened-URL recursion. -/
structure CheckState where
  verified_links : List (Str × Str)
  status_codes : List (Nat × Nat)
  df : List (Nat × Str)
  probes : Nat
  retried : Nat
deriving DecidableEq

/-- `check_link_status(link, index, verified_links, status_codes, df,
column_name, test_websites)` from the source, with the mutable state
threaded explicitly and the probe call abstracted as an oracle keyed by
URL.  `Except.error ()` models an exception other than
`RequestException` escaping (the caller `process_link` catches it); the
partially-updated state at the moment of the raise is carried along. -/
def check_link_status (probe : Str → ProbeResult) (test_websites : Bool)
    (link : Str) (index : Nat) (s : CheckState) :
    CheckState × Except Unit (Str × Nat) :=
  if dictGet? link s.verified_links = some Working then
    (s, .ok (Working, 200))
  else
    let s1 : CheckState := { s with probes := s.probes + 1 }
    match probe link with
    | .unexpected => (s1, .error ())
    | .transportError =>
        ({ s1 with status_codes := dictIncr 0 s1.status_codes,
                   df := dictSet index [] s1.df,
                   verified_links := dictSet link NotWorking s1.verified_links },
         .ok (NotWorking, 0))
    | .status status_code =>
        let s2 : CheckState :=
          { s1 with status_codes := dictIncr status_code s1.status_codes }
        if status_code = 200 then
          ({ s2 with verified_links := dictSet link Working s2.verified_links },
           .ok (Working, status_code))
        else if status_code = 406 then
          ({ s2 with verified_links := dictSet link NotWorking s2.verified_links,
                     df := dictSet index [] s2.df },
           .ok (NotWorking, status_code))
        else if status_code = 404 then
          if shorten_url link = link ∨ test_websites = false then
            ({ s2 with df := dictSet index [] s2.df,
                       verified_links := dictSet link NotWorking s2.verified_links },
             .ok (NotWorking, status_code))
          else
            check_link_status probe test_websites (shorten_url link) index
              { s2 with retried := s2.retried + 1 }
        else if status_code = 429 then
          ({ s2 with verified_links := dictSet link Working s2.verified_links },
           .ok (Working, status_code))
        else if status_code = 403 then
          if test_websites then
            ({ s2 with verified_links := dictSet link Working s2.verified_links },
             .ok (Working, status_code))
          else
            ({ s2 with verified_links := dictSet link NotWorking s2.verified_links,
                       df := dictSet index [] s2.df },
             .ok (NotWorking, status_code))
        else
          ({ s2 with verified_links := dictSet link NotWorking s2.verified_links,
                     df := dictSet index [] s2.df },
           .ok (NotWorking, status_code))
termination_by shortenDepth link
decreasing_by
  have h : ¬(shorten_url link = link ∨ test_websites = false) := by assumption
  exact shortenDepth_lt fun heq => h (Or.inl heq)

/-- The defining equation of `check_link_status`, restated so it can be
applied by `rw` (the recursion is well-founded, so the definition itself
does not reduce definitionally). -/
theorem check_link_status_eq (probe : Str → ProbeResult) (test_websites : Bool)
    (link : Str) (index : Nat) (s : CheckState) :
    check_link_status probe test_websites link index s =
    (if dictGet? link s.verified_links = some Working then
      (s, .ok (Working, 200))
    else
      let s1 : CheckState := { s with probes := s.probes + 1 }
      match probe link with
      | .unexpected => (s1, .error ())
      | .transportError =>
          ({ s1 with status_codes := dictIncr 0 s1.status_codes,
                     df := dictSet index [] s1.df,
                     verified_links := dictSet link NotWorking s1.verified_links },
           .ok (NotWorking, 0))
      | .status status_code =>
          let s2 : CheckState :=
            { s1 with status_codes := dictIncr status_code s1.status_codes }
          if status_code = 200 then
            ({ s2 with verified_links := dictSet link Working s2.verified_links },
             .ok (Working, status_code))
          else if status_code = 406 then
            ({ s2 with verified_links := dictSet link NotWorking s2.verified_links,
                       df := dictSet index [] s2.df },
             .ok (NotWorking, status_code))
          else if status_code = 404 then
            if shorten_url link = link ∨ test_websites = false then
              ({ s2 with df := dictSet index [] s2.df,
                         verified_links := dictSet link NotWorking s2.verified_links },
               .ok (NotWorking, status_code))
            else
              check_link_status probe test_websites (shorten_url link) index
                { s2 with retried := s2.retried + 1 }
          else if status_code = 429 then
            ({ s2 with verified_links := dictSet link Working s2.verified_links },
             .ok (Working, status_code))
          else if status_code = 403 then
            if test_websites then
              ({ s2 with verified_links := dictSet link Working s2.verified_links },
               .ok (Working, status_code))
            else
              ({ s2 with verified_links := dictSet link NotWorking s2.verified_links,
                         df := dictSet index [] s2.df },
               .ok (NotWorking, status_code))
          else
            ({ s2 with verified_links := dictSet link NotWorking s2.verified_links,
                       df := dictSet index [] s2.df },
             .ok (NotWorking, status_code))) := by
  rw [check_link_status]

theorem histTotal_dictIncr (k : Nat) (h : List (Nat × Nat)) :
    histTotal (dictIncr k h) = histTotal h + 1 := by
  induction h with
  | nil => simp [dictIncr, histTotal]
  | cons p rest ih =>
    obtain ⟨k', n⟩ := p
    by_cases hk : k' = k
    · simp [dictIncr, hk, histTotal]
      omega
    · simp only [dictIncr, if_neg hk]
      simp only [histTotal, List.map_cons, List.sum_cons] at *
      omega

/-- Structural invariants of one `check_link_status` call, proved together
by strong induction on the recursion measure: the ghost probe counter is
monotone and grows by at most `1 + shortenDepth link`; an escaping
exception, as well as a Working outcome, leaves the dataframe column
untouched; when the oracle never raises unexpectedly, the histogram total
advances in lockstep with the probe counter; and a cache miss forces at
least one probe. -/
theorem check_invariants (probe : Str → ProbeResult) (tw : Bool) :
    ∀ (n : Nat) (link : Str) (index : Nat) (s : CheckState),
      shortenDepth link ≤ n →
      (check_link_status probe tw link index s).1.probes
          ≤ s.probes + 1 + shortenDepth link ∧
      s.probes ≤ (check_link_status probe tw link index s).1.probes ∧
      ((check_link_status probe tw link index s).2 = .error () →
        (check_link_status probe tw link index s).1.df = s.df) ∧
      (∀ c : Nat, (check_link_status probe tw link index s).2 = .ok (Working, c) →
        (check_link_status probe tw link index s).1.df = s.df) ∧
      ((∀ u, probe u ≠ .unexpected) →
        histTotal (check_link_status probe tw link index s).1.status_codes + s.probes
          = histTotal s.status_codes
              + (check_link_status probe tw link index s).1.probes) ∧
      (dictGet? link s.verified_links ≠ some Working →
        s.probes + 1 ≤ (check_link_status probe tw link index s).1.probes) := by
  intro n
  induction n using Nat.strong_induction_on with
  | _ n ih =>
  intro link index s hd
  rw [check_link_status_eq]
  by_cases hc : dictGet? link s.verified_links = some Working
  · rw [if_pos hc]
    refine ⟨?_, ?_, ?_, ?_, ?_, ?_⟩
    · first | omega | (show s.probes ≤ s.probes + 1 + shortenDepth link; omega)
    · first | omega | (exact le_refl _)
    · first | simp | (intro h; simp at h) | (exact fun h => rfl)
    · first | (exact fun c hcq => rfl) | simp
    · first | (exact fun _ => rfl) | simp
    · exact fun hmiss => absurd hc hmiss
  · rw [if_neg hc]
    cases hp : probe link with
    | unexpected =>
      simp only [hp]
      refine ⟨?_, ?_, ?_, ?_, ?_, ?_⟩
      · first | omega | (show s.probes + 1 ≤ s.probes + 1 + shortenDepth link; omega)
      · first | omega | (show s.probes ≤ s.probes + 1; omega)
      · first | simp | (intro h; simp at h) | (exact fun h => rfl)
      · first | simp | (intro c hcq; simp at hcq) | (exact fun c hcq => rfl)
      · intro hno
        exact absurd hp (hno link)
      · first | (exact fun _ => le_refl _) | (intro _; omega) | simp
    | transportError =>
      simp only [hp]
      refine ⟨?_, ?_, ?_, ?_, ?_, ?_⟩
      · first | omega | (show s.probes + 1 ≤ s.probes + 1 + shortenDepth link; omega)
      · first | omega | (show s.probes ≤ s.probes + 1; omega)
      · first | simp | (intro h; simp at h) | (exact fun h => rfl)
      · first | (intro c hcq; simp only [Except.ok.injEq, Prod.mk.injEq] at hcq; exact absurd hcq.1 (by decide)) | (intro c hcq; simp [Working, NotWorking] at hcq) | simp
      · intro _
        first
          | (show histTotal (dictIncr 0 s.status_codes) + s.probes
                = histTotal s.status_codes + (s.probes + 1); rw [histTotal_dictIncr]; omega)
          | (rw [histTotal_dictIncr]; omega)
      · first | (exact fun _ => le_refl _) | (intro _; omega) | simp
    | status code =>
      simp only [hp]
      by_cases h200 : code = 200
      · rw [if_pos h200]
        refine ⟨?_, ?_, ?_, ?_, ?_, ?_⟩
        · first | omega | (show s.probes + 1 ≤ s.probes + 1 + shortenDepth link; omega)
        · first | omega | (show s.probes ≤ s.probes + 1; omega)
        · first | simp | (intro h; simp at h) | (exact fun h => rfl)
        · first | (exact fun c hcq => rfl) | simp
        · intro _
          first
            | (show histTotal (dictIncr code s.status_codes) + s.probes
                  = histTotal s.status_codes + (s.probes + 1); rw [histTotal_dictIncr]; omega)
            | (rw [histTotal_dictIncr]; omega)
        · first | (exact fun _ => le_refl _) | (intro _; omega) | simp
      · rw [if_neg h200]
        by_cases h406 : code = 406
        · rw [if_pos h406]
          refine ⟨?_, ?_, ?_, ?_, ?_, ?_⟩
          · first | omega | (show s.probes + 1 ≤ s.probes + 1 + shortenDepth link; omega)
          · first | omega | (show s.probes ≤ s.probes + 1; omega)
          · first | simp | (intro h; simp at h) | (exact fun h => rfl)
          · first | (intro c hcq; simp only [Except.ok.injEq, Prod.mk.injEq] at hcq; exact absurd hcq.1 (by decide)) | (intro c hcq; simp [Working, NotWorking] at hcq) | simp
          · intro _
            first
              | (show histTotal (dictIncr code s.status_codes) + s.probes
                    = histTotal s.status_codes + (s.probes + 1); rw [histTotal_dictIncr]; omega)
              | (rw [histTotal_dictIncr]; omega)
          · first | (exact fun _ => le_refl _) | (intro _; omega) | simp
        · rw [if_neg h406]
          by_cases h404 : code = 404
          · rw [if_pos h404]
            by_cases hrt : shorten_url link = link ∨ tw = false
            · rw [if_pos hrt]
              refine ⟨?_, ?_, ?_, ?_, ?_, ?_⟩
              · first | omega | (show s.probes + 1 ≤ s.probes + 1 + shortenDepth link; omega)
              · first | omega | (show s.probes ≤ s.probes + 1; omega)
              · first | simp | (intro h; simp at h) | (exact fun h => rfl)
              · first | (intro c hcq; simp only [Except.ok.injEq, Prod.mk.injEq] at hcq; exact absurd hcq.1 (by decide)) | (intro c hcq; simp [Working, NotWorking] at hcq) | simp
              · intro _
                first
                  | (show histTotal (dictIncr code s.status_codes) + s.probes
                        = histTotal s.status_codes + (s.probes + 1); rw [histTotal_dictIncr]; omega)
                  | (rw [histTotal_dictIncr]; omega)
              · first | (exact fun _ => le_refl _) | (intro _; omega) | simp
            · rw [if_neg hrt]
              have hlt : shortenDepth (shorten_url link) < shortenDepth link :=
                shortenDepth_lt fun heq => hrt (Or.inl heq)
              obtain ⟨i1, i2, i3, i4, i5, i6⟩ := ih (shortenDepth (shorten_url link))
                (lt_of_lt_of_le hlt hd) (shorten_url link) index
                { verified_links := s.verified_links,
                  status_codes := dictIncr code s.status_codes,
                  df := s.df, probes := s.probes + 1, retried := s.retried + 1 }
                (le_refl _)
              refine ⟨?_, ?_, fun herr => i3 herr, fun c hcq => i4 c hcq, ?_, fun _ => i2⟩
              · dsimp only at i1 ⊢
                omega
              · dsimp only at i2 ⊢
                omega
              · intro hno
                have i5h := i5 hno
                dsimp only at i5h ⊢
                rw [histTotal_dictIncr] at i5h
                omega
          · rw [if_neg h404]
            by_cases h429 : code = 429
            · rw [if_pos h429]
              refine ⟨?_, ?_, ?_, ?_, ?_, ?_⟩
              · first | omega | (show s.probes + 1 ≤ s.probes + 1 + shortenDepth link; omega)
              · first | omega | (show s.probes ≤ s.probes + 1; omega)
              · first | simp | (intro h; simp at h) | (exact fun h => rfl)
              · first | (exact fun c hcq => rfl) | simp
              · intro _
                first
                  | (show histTotal (dictIncr code s.status_codes) + s.probes
                        = histTotal s.status_codes + (s.probes + 1); rw [histTotal_dictIncr]; omega)
                  | (rw [histTotal_dictIncr]; omega)
              · first | (exact fun _ => le_refl _) | (intro _; omega) | simp
            · rw [if_neg h429]
              by_cases h403 : code = 403
              · rw [if_pos h403]
                by_cases htw : tw = true
                · rw [if_pos htw]
                  refine ⟨?_, ?_, ?_, ?_, ?_, ?_⟩
                  · first | omega | (show s.probes + 1 ≤ s.probes + 1 + shortenDepth link; omega)
                  · first | omega | (show s.probes ≤ s.probes + 1; omega)
                  · first | simp | (intro h; simp at h) | (exact fun h => rfl)
                  · first | (exact fun c hcq => rfl) | simp
                  · intro _
                    first
                      | (show histTotal (dictIncr code s.status_codes) + s.probes
                            = histTotal s.status_codes + (s.probes + 1); rw [histTotal_dictIncr]; omega)
                      | (rw [histTotal_dictIncr]; omega)
                  · first | (exact fun _ => le_refl _) | (intro _; omega) | simp
                · rw [if_neg htw]
                  refine ⟨?_, ?_, ?_, ?_, ?_, ?_⟩
                  · first | omega | (show s.probes + 1 ≤ s.probes + 1 + shortenDepth link; omega)
                  · first | omega | (show s.probes ≤ s.probes + 1; omega)
                  · first | simp | (intro h; simp at h) | (exact fun h => rfl)
                  · first | (intro c hcq; simp only [Except.ok.injEq, Prod.mk.injEq] at hcq; exact absurd hcq.1 (by decide)) | (intro c hcq; simp [Working, NotWorking] at hcq) | simp
                  · intro _
                    first
                      | (show histTotal (dictIncr code s.status_codes) + s.probes
                            = histTotal s.status_codes + (s.probes + 1); rw [histTotal_dictIncr]; omega)
                      | (rw [histTotal_dictIncr]; omega)
                  · first | (exact fun _ => le_refl _) | (intro _; omega) | simp
              · rw [if_neg h403]
                refine ⟨?_, ?_, ?_, ?_, ?_, ?_⟩
                · first | omega | (show s.probes + 1 ≤ s.probes + 1 + shortenDepth link; omega)
                · first | omega | (show s.probes ≤ s.probes + 1; omega)
                · first | simp | (intro h; simp at h) | (exact fun h => rfl)
                · first | (intro c hcq; simp only [Except.ok.injEq, Prod.mk.injEq] at hcq; exact absurd hcq.1 (by decide)) | (intro c hcq; simp [Working, NotWorking] at hcq) | simp
                · intro _
                  first
                    | (show histTotal (dictIncr code s.status_codes) + s.probes
                          = histTotal s.status_codes + (s.probes + 1); rw [histTotal_dictIncr]; omega)
                    | (rw [histTotal_dictIncr]; omega)
                · first | (exact fun _ => le_refl _) | (intro _; omega) | simp

/-! ## The normalization passes -/

/-- `link.replace('http://', 'https://')`: Python `str.replace` substitutes
every non-overlapping occurrence, scanning left to right. -/
def replace_http : Str → Str
  | 'h' :: 't' :: 't' :: 'p' :: ':' :: '/' :: '/' :: rest =>
      "https://".data ++ replace_http rest
  | c :: rest => c :: replace_http rest
  | [] => []

/-- Does `"http://"` occur anywhere in the string? -/
def hasHttpSub : Str → Bool
  | [] => false
  | c :: rest => decide ((c :: rest).take 7 = "http://".data) || hasHttpSub rest

/-- The per-cell body of `update_links_to_https` (lines 41–52 of the
source): two successive `if`s on the original cell value; a hit on the
second overwrites the first's assignment (their guards are mutually
exclusive, but the model keeps the sequential overwrite semantics). -/
def update_links_to_https_cell (link : Str) : Str :=
  let r := link
  let r := if link.take 2 = "//".data then "https:".data ++ link else r
  let r := if link.take 7 = "http://".data then replace_http link else r
  r

/-- Hexadecimal digit value accepted by CPython's `_hextobyte` table
(both cases). -/
def hexVal? (c : Char) : Option Nat :=
  let n := c.toNat
  if 48 ≤ n then
    if n ≤ 57 then some (n - 48)
    else if 65 ≤ n ∧ n ≤ 70 then some (n - 55)
    else if 97 ≤ n ∧ n ≤ 102 then some (n - 87)
    else none
  else none

/-- CPython `urllib.parse.unquote` on ASCII text: each `%xy` with two hex
digits becomes the byte `16*x + y`; a `%` not followed by two hex digits
is kept literally (CPython keeps `'%' + item` on a failed table lookup).
(CPython decodes the resulting byte string as UTF-8; for the ASCII range
modelled here the two readings agree byte for byte.) -/
def unquote : Str → Str
  | [] => []
  | '%' :: a :: b :: rest =>
      match hexVal? a, hexVal? b with
      | some ha, some hb => Char.ofNat (ha * 16 + hb) :: unquote rest
      | _, _ => '%' :: unquote (a :: b :: rest)
  | c :: rest => c :: unquote rest

/-- `unquote_plus`: `string.replace('+', ' ')` then `unquote` (this is also
exactly what `parse_qsl` does to each name and value). -/
def unquote_plus (s : Str) : Str :=
  unquote (s.map fun c => if c = '+' then ' ' else c)

/-- CPython's `_ALWAYS_SAFE` characters, never percent-encoded by
`quote`. -/
def quoteSafe (c : Char) : Bool :=
  c.isAlphanum || c = '_' || c = '.' || c = '-' || c = '~'

/-- Upper-case hexadecimal digit, for `quote`'s `%XX` escapes. -/
def hexDigit (n : Nat) : Char :=
  if n < 10 then Char.ofNat ('0'.toNat + n) else Char.ofNat ('A'.toNat + n - 10)

/-- One character under `quote_plus` with `safe=''` (as `urlencode` uses
it): a space becomes `'+'`, an always-safe character stays, anything else
becomes `%XX` (upper-case hex of the character's ASCII code). -/
def quote_plus_char (c : Char) : Str :=
  if c = ' ' then ['+']
  else if quoteSafe c then [c]
  else ['%', hexDigit (c.toNat / 16 % 16), hexDigit (c.toNat % 16)]

/-- CPython `quote_plus` with `safe=''` on ASCII text. -/
def quote_plus (s : Str) : Str := s.foldr (fun c acc => quote_plus_char c ++ acc) []

/-- Python `str.split(sep)` (no maxsplit): `"" → [""]`, empty fields
kept. -/
def splitSep (sep : Char) : Str → List Str
  | [] => [[]]
  | c :: rest =>
      match splitSep sep rest with
      | [] => [[c]]
      | fld :: flds => if c = sep then [] :: fld :: flds else (c :: fld) :: flds

/-- The per-field body of CPython 3.11 `parse_qsl` with all defaults
(`keep_blank_values=False`): skip an empty field; skip a field without
`'='` (the `take`/`length` test mirrors `nv = name_value.split('=', 1)`
finding no separator); skip a field whose value is empty; otherwise decode
name and value with `unquote_plus`. -/
def parse_field (f : Str) : Option (Str × Str) :=
  if f = [] then none
  else if (f.takeWhile (· ≠ '=')).length = f.length then none
  else if (f.dropWhile (· ≠ '=')).drop 1 = [] then none
  else some (unquote_plus (f.takeWhile (· ≠ '=')),
             unquote_plus ((f.dropWhile (· ≠ '=')).drop 1))

/-- CPython 3.11 `parse_qsl(qs)` with all defaults (`separator='&'`):
`qs.split('&') if qs else []`, each field processed by the loop body
above. -/
def parse_qsl (qs : Str) : List (Str × Str) :=
  if qs = [] then []
  else (splitSep '&' qs).filterMap parse_field

/-- CPython `parse_qs(qs)`: group the `parse_qsl` pairs into a dict of
lists, preserving first-occurrence key order. -/
def parse_qs (qs : Str) : List (Str × List Str) :=
  (parse_qsl qs).foldl (fun d kv => dictAppend kv.1 kv.2 d) []

/-- CPython `urlencode(query, doseq=True)` on a dict of string lists:
one `quote_plus(k) + '=' + quote_plus(v)` field per list element, keys in
dict order, joined by `'&'`. -/
def urlencode (query : List (Str × List Str)) : Str :=
  List.intercalate ['&']
    (query.flatMap fun kvs => kvs.2.map fun v => quote_plus kvs.1 ++ '=' :: quote_plus v)

/-- The query-parameter name the source strips. -/
def igshid : Str := "igshid".data

/-- The per-cell body of `remove_igshid_parameter` (lines 118–128 of the
source): parse the URL, parse its query; if the (decoded) parameter dict
contains the key `igshid`, delete it, re-encode with
`urlencode(..., doseq=True)`, and rebuild the URL with
`urlunparse(parsed_url._replace(query=new_query))`; otherwise the cell is
left unchanged. -/
def remove_igshid_parameter_cell (link : Str) : Str :=
  let parsed_url := urlsplit link
  let query_params := parse_qs parsed_url.query
  if dictGet? igshid query_params ≠ none then
    let new_query := urlencode (dictDelete igshid query_params)
    urlunsplit { parsed_url with query := new_query }
  else link

/-- The full normalization pass of the pipeline, per cell: step 1
(`update_links_to_https`) followed by step 2
(`remove_igshid_parameter`); the spec calls this composition `normalize`
(the name `normalize` itself is taken by Mathlib). -/
def normalize_link (link : Str) : Str :=
  remove_igshid_parameter_cell (update_links_to_https_cell link)

example : update_links_to_https_cell "//ex.com/a".data = "https://ex.com/a".data := by decide

example : update_links_to_https_cell "http://ex.com/a".data = "https://ex.com/a".data := by decide

example : normalize_link "https://ex.com/a?igshid=123&b=2".data = "https://ex.com/a?b=2".data := by decide

example : normalize_link "HTTP://ex.com/?igshid=1&b=2".data = "http://ex.com/?b=2".data := by decide

example : normalize_link "http://ex.com/?b=2".data = "https://ex.com/?b=2".data := by decide

example : remove_igshid_parameter_cell "https://ex.com/a?b=&igshid=1".data
    = "https://ex.com/a".data := by decide

example : update_links_to_https_cell "http://a.com/?u=http://b.com".data
    = "https://a.com/?u=https://b.com".data := by decide

/-! ## The concurrent dispatcher, as an aggregation over completions -/

/-- The literal `"Error"` produced by `process_link`'s `except` clause. -/
def ErrorLabel : Str := "Error".data

/-- `process_link(index, link)` from the source: run `check_link_status`;
any exception it lets escape is converted to `("Error", 0)`; the detailed
result row `[link, status, status_code]` is appended; `(link, status)` is
returned to the aggregation loop. -/
def process_link (probe : Str → ProbeResult) (test_websites : Bool)
    (index : Nat) (link : Str) (s : CheckState)
    (detailed_results : List (Str × Str × Nat)) :
    CheckState × List (Str × Str × Nat) × (Str × Str) :=
  match check_link_status probe test_websites link index s with
  | (s', .ok (status, status_code)) =>
      (s', detailed_results ++ [(link, status, status_code)], (link, status))
  | (s', .error _) =>
      (s', detailed_results ++ [(link, ErrorLabel, 0)], (link, ErrorLabel))

/-- The `ThreadPoolExecutor` aggregation loop (lines 279–290 of the
source): one `process_link` task per submitted `(row index, link)` pair;
each completion increments `working_count` when its status equals
`'Working'` and `not_working_count` otherwise.  The model consumes the
tasks in list order; completion order only permutes which task each
iteration handles, and no claim below depends on it. -/
def runAll (probe : Str → ProbeResult) (test_websites : Bool) :
    List (Nat × Str) → CheckState → List (Str × Str × Nat) → Nat → Nat →
    CheckState × List (Str × Str × Nat) × Nat × Nat
  | [], s, detailed_results, working_count, not_working_count =>
      (s, detailed_results, working_count, not_working_count)
  | (index, link) :: rest, s, detailed_results, working_count, not_working_count =>
      match process_link probe test_websites index link s detailed_results with
      | (s', detailed', (_, status)) =>
          if status = Working then
            runAll probe test_websites rest s' detailed' (working_count + 1) not_working_count
          else
            runAll probe test_websites rest s' detailed' working_count (not_working_count + 1)

theorem runAll_counts (probe : Str → ProbeResult) (tw : Bool) :
    ∀ (tasks : List (Nat × Str)) (s : CheckState)
      (detailed : List (Str × Str × Nat)) (wc nwc : Nat),
      (runAll probe tw tasks s detailed wc nwc).2.2.1
          + (runAll probe tw tasks s detailed wc nwc).2.2.2
        = wc + nwc + tasks.length := by
  intro tasks
  induction tasks with
  | nil => intro s detailed wc nwc; simp [runAll]
  | cons t rest ih =>
    intro s detailed wc nwc
    obtain ⟨index, link⟩ := t
    rw [runAll]
    cases hpl : process_link probe tw index link s detailed with
    | mk s' rest2 =>
      obtain ⟨detailed', lnk, status⟩ := rest2
      dsimp only
      by_cases hw : status = Working
      · rw [if_pos hw]
        rw [ih]
        simp [List.length_cons]
        omega
      · rw [if_neg hw]
        rw [ih]
        simp [List.length_cons]
        omega

theorem runAll_hist (probe : Str → ProbeResult) (tw : Bool)
    (hno : ∀ u, probe u ≠ .unexpected) :
    ∀ (tasks : List (Nat × Str)) (s : CheckState)
      (detailed : List (Str × Str × Nat)) (wc nwc : Nat),
      histTotal (runAll probe tw tasks s detailed wc nwc).1.status_codes + s.probes
        = histTotal s.status_codes
            + (runAll probe tw tasks s detailed wc nwc).1.probes := by
  intro tasks
  induction tasks with
  | nil => intro s detailed wc nwc; simp [runAll]
  | cons t rest ih =>
    intro s detailed wc nwc
    obtain ⟨index, link⟩ := t
    have h5 := (check_invariants probe tw (shortenDepth link) link index s
      (le_refl _)).2.2.2.2.1 hno
    rw [runAll]
    unfold process_link
    cases hck : check_link_status probe tw link index s with
    | mk s' r =>
      rw [hck] at h5
      dsimp only at h5
      cases r with
      | ok pr =>
        obtain ⟨st, code⟩ := pr
        dsimp only
        by_cases hw : st = Working
        · rw [if_pos hw]
          have ihs := ih s' (detailed ++ [(link, st, code)]) (wc + 1) nwc
          omega
        · rw [if_neg hw]
          have ihs := ih s' (detailed ++ [(link, st, code)]) wc (nwc + 1)
          omega
      | error e =>
        dsimp only
        rw [if_neg (by decide : ¬ (ErrorLabel = Working))]
        have ihs := ih s' (detailed ++ [(link, ErrorLabel, 0)]) wc (nwc + 1)
        omega

/-! ## Claim theorems -/

/-- C1: the status classifier, for every probe result and retry-mode flag,
returns exactly the table's verdict once the cache has not short-circuited:
200 ↦ Working; 406 ↦ Not Working with no retry; 404 ↦ shortened-URL retry
unless the shortened URL equals the original or retry mode is disabled, in
which case Not Working; 429 ↦ Working; 403 ↦ Working iff retry mode is
enabled; any other status ↦ Not Working; a transport exception ↦ Not
Working under sentinel status code 0. -/
theorem C1_classifier_table (probe : Str → ProbeResult) (test_websites : Bool)
    (link : Str) (index : Nat) (s : CheckState)
    (hmiss : dictGet? link s.verified_links ≠ some Working) :
    (probe link = .status 200 →
      (check_link_status probe test_websites link index s).2 = .ok (Working, 200)) ∧
    (probe link = .status 406 →
      (check_link_status probe test_websites link index s).2 = .ok (NotWorking, 406) ∧
      (check_link_status probe test_websites link index s).1.retried = s.retried) ∧
    (probe link = .status 404 → (shorten_url link = link ∨ test_websites = false) →
      (check_link_status probe test_websites link index s).2 = .ok (NotWorking, 404) ∧
      (check_link_status probe test_websites link index s).1.retried = s.retried) ∧
    (probe link = .status 404 → shorten_url link ≠ link → test_websites = true →
      check_link_status probe test_websites link index s
        = check_link_status probe test_websites (shorten_url link) index
            { verified_links := s.verified_links,
              status_codes := dictIncr 404 s.status_codes,
              df := s.df, probes := s.probes + 1, retried := s.retried + 1 }) ∧
    (probe link = .status 429 →
      (check_link_status probe test_websites link index s).2 = .ok (Working, 429)) ∧
    (probe link = .status 403 → test_websites = true →
      (check_link_status probe test_websites link index s).2 = .ok (Working, 403)) ∧
    (probe link = .status 403 → test_websites = false →
      (check_link_status probe test_websites link index s).2 = .ok (NotWorking, 403)) ∧
    (∀ code : Nat, probe link = .status code →
      code ≠ 200 → code ≠ 406 → code ≠ 404 → code ≠ 429 → code ≠ 403 →
      (check_link_status probe test_websites link index s).2 = .ok (NotWorking, code)) ∧
    (probe link = .transportError →
      (check_link_status probe test_websites link index s).2 = .ok (NotWorking, 0)) := by
  rw [check_link_status_eq, if_neg hmiss]
  refine ⟨?_, ?_, ?_, ?_, ?_, ?_, ?_, ?_, ?_⟩
  · intro hp
    simp [hp]
  · intro hp
    simp [hp]
  · intro hp hshort
    rcases hshort with hshort | hshort
    · simp [hp, hshort]
    · simp [hp, hshort]
  · intro hp hne htw
    simp [hp, hne, htw]
  · intro hp
    simp [hp]
  · intro hp htw
    simp [hp, htw]
  · intro hp htw
    simp [hp, htw]
  · intro code hp h1 h2 h3 h4 h5
    simp [hp, h1, h2, h3, h4, h5]
  · intro hp
    simp [hp]

theorem C1_classifier_table_witness :
    (check_link_status (fun _ => .status 200) true "https://a.com".data 0
      ⟨[], [], [], 0, 0⟩).2 = .ok (Working, 200) :=
  (C1_classifier_table (fun _ => .status 200) true "https://a.com".data 0
    ⟨[], [], [], 0, 0⟩ (by decide)).1 rfl

/-- C2, counterexample: a protocol-relative URL that keeps receiving 404
is probed three times, not at most twice — its shortened form
`"://ex.com/"` has no parseable scheme, shortens again to the distinct
`":///"`, and only that third URL is a fixed point of `shorten_url`. -/
theorem C2_three_probes :
    (check_link_status (fun _ => .status 404) true "//ex.com/x".data 0
      ⟨[], [], [], 0, 0⟩).1.probes = 3 := by
  have e1 : shorten_url "//ex.com/x".data = "://ex.com/".data := by decide
  have h1 : check_link_status (fun _ => .status 404) true "//ex.com/x".data 0
        ⟨[], [], [], 0, 0⟩
      = check_link_status (fun _ => .status 404) true
          (shorten_url "//ex.com/x".data) 0 ⟨[], dictIncr 404 [], [], 1, 1⟩ := by
    rw [check_link_status_eq]
    rfl
  have h2 : check_link_status (fun _ => .status 404) true "://ex.com/".data 0
        ⟨[], dictIncr 404 [], [], 1, 1⟩
      = check_link_status (fun _ => .status 404) true
          (shorten_url "://ex.com/".data) 0
          ⟨[], dictIncr 404 (dictIncr 404 []), [], 2, 2⟩ := by
    rw [check_link_status_eq]
    rfl
  have e2 : shorten_url "://ex.com/".data = ":///".data := by decide
  rw [h1, e1, h2, e2, check_link_status_eq]
  decide

/-- C2, amended: a single check performs at most three probes in general;
at most two whenever the link's shortened form is a `shorten_url` fixed
point (which holds for every URL with a parseable scheme); and when
`shorten_url link = link`, a cache-missing 404 finalizes as Not Working
after exactly one probe, with no recursive call (the retry counter is
untouched). -/
theorem C2_shortening_bound (probe : Str → ProbeResult) (test_websites : Bool)
    (link : Str) (index : Nat) (s : CheckState) :
    (check_link_status probe test_websites link index s).1.probes ≤ s.probes + 3 ∧
    (shorten_url (shorten_url link) = shorten_url link →
      (check_link_status probe test_websites link index s).1.probes ≤ s.probes + 2) ∧
    (shorten_url link = link → dictGet? link s.verified_links ≠ some Working →
      probe link = .status 404 →
      check_link_status probe test_websites link index s
        = ({ verified_links := dictSet link NotWorking s.verified_links,
             status_codes := dictIncr 404 s.status_codes,
             df := dictSet index [] s.df,
             probes := s.probes + 1, retried := s.retried },
           .ok (NotWorking, 404))) := by
  refine ⟨?_, ?_, ?_⟩
  · have h1 := (check_invariants probe test_websites (shortenDepth link) link index s
      (le_refl _)).1
    have h2 := shortenDepth_le_two link
    omega
  · intro hidem
    have h1 := (check_invariants probe test_websites (shortenDepth link) link index s
      (le_refl _)).1
    have h2 := shortenDepth_le_one_of_idem hidem
    omega
  · intro hfix hmiss hp
    rw [check_link_status_eq, if_neg hmiss]
    simp [hp, hfix]

theorem C2_shortening_bound_witness :
    shorten_url (shorten_url ":///".data) = shorten_url ":///".data ∧
    (check_link_status (fun _ => .status 404) true ":///".data 0
        ⟨[], [], [], 0, 0⟩).1.probes ≤ 0 + 2 ∧
    check_link_status (fun _ => .status 404) true ":///".data 0 ⟨[], [], [], 0, 0⟩
      = ({ verified_links := dictSet ":///".data NotWorking [],
           status_codes := dictIncr 404 [], df := dictSet 0 [] [],
           probes := 1, retried := 0 }, .ok (NotWorking, 404)) :=
  ⟨by decide,
   (C2_shortening_bound (fun _ => .status 404) true ":///".data 0
     ⟨[], [], [], 0, 0⟩).2.1 (by decide),
   (C2_shortening_bound (fun _ => .status 404) true ":///".data 0
     ⟨[], [], [], 0, 0⟩).2.2 (by decide) (by decide) rfl⟩

/-- C3: the verification cache short-circuits asymmetrically: a cached
`"Working"` entry makes `check_link_status` return `("Working", 200)` at
once, with the whole state untouched and no probe; a cached
`"Not Working"` entry never short-circuits — the check still performs at
least one fresh probe. -/
theorem C3_cache_asymmetry (probe : Str → ProbeResult) (test_websites : Bool)
    (link : Str) (index : Nat) (s : CheckState) :
    (dictGet? link s.verified_links = some Working →
      check_link_status probe test_websites link index s = (s, .ok (Working, 200))) ∧
    (dictGet? link s.verified_links = some NotWorking →
      s.probes + 1 ≤ (check_link_status probe test_websites link index s).1.probes) := by
  constructor
  · intro h
    rw [check_link_status_eq, if_pos h]
  · intro h
    refine (check_invariants probe test_websites (shortenDepth link) link index s
      (le_refl _)).2.2.2.2.2 ?_
    rw [h]
    intro hcontra
    exact absurd (Option.some.inj hcontra) (by decide)

theorem C3_cache_asymmetry_witness :
    check_link_status (fun _ => .status 404) true "u".data 0
        ⟨[("u".data, Working)], [], [], 0, 0⟩
      = (⟨[("u".data, Working)], [], [], 0, 0⟩, .ok (Working, 200)) ∧
    0 + 1 ≤ (check_link_status (fun _ => .status 404) true "u".data 0
        ⟨[("u".data, NotWorking)], [], [], 0, 0⟩).1.probes :=
  ⟨(C3_cache_asymmetry (fun _ => .status 404) true "u".data 0
      ⟨[("u".data, Working)], [], [], 0, 0⟩).1 (by decide),
   (C3_cache_asymmetry (fun _ => .status 404) true "u".data 0
      ⟨[("u".data, NotWorking)], [], [], 0, 0⟩).2 (by decide)⟩

/-- C4: after the dispatcher completes over any list of submitted links,
for every probe behavior and any mix of Working / Not Working / Error
outcomes, `workingCount + notWorkingCount` equals the prior totals plus
the number of submitted links — each completed task increments exactly one
of the two counters, and a task ending in an unexpected internal error is
counted as not-working. -/
theorem C4_dispatcher_conservation (probe : Str → ProbeResult)
    (test_websites : Bool) (tasks : List (Nat × Str)) (s : CheckState)
    (detailed : List (Str × Str × Nat)) (wc nwc : Nat) :
    (runAll probe test_websites tasks s detailed wc nwc).2.2.1
        + (runAll probe test_websites tasks s detailed wc nwc).2.2.2
      = wc + nwc + tasks.length :=
  runAll_counts probe test_websites tasks s detailed wc nwc

/-- C5, counterexample: the histogram counts every probe, including the
non-terminal 404 that triggers the shortened-URL retry.  One link
receiving 404 twice (original, then shortened form) contributes two
histogram entries while only one probe was terminal (probes − retried):
the histogram total does not equal the number of terminal probe
attempts. -/
theorem C5_histogram_counts_retried_probe :
    histTotal (check_link_status (fun _ => .status 404) true
        "https://c.com/404page".data 0 ⟨[], [], [], 0, 0⟩).1.status_codes = 2 ∧
    (check_link_status (fun _ => .status 404) true
        "https://c.com/404page".data 0 ⟨[], [], [], 0, 0⟩).1.probes
      - (check_link_status (fun _ => .status 404) true
        "https://c.com/404page".data 0 ⟨[], [], [], 0, 0⟩).1.retried = 1 ∧
    (2 : Nat) ≠ 1 := by
  have h1 : check_link_status (fun _ => .status 404) true
        "https://c.com/404page".data 0 ⟨[], [], [], 0, 0⟩
      = check_link_status (fun _ => .status 404) true
          (shorten_url "https://c.com/404page".data) 0
          ⟨[], dictIncr 404 [], [], 1, 1⟩ := by
    rw [check_link_status_eq]
    rfl
  have e1 : shorten_url "https://c.com/404page".data = "https://c.com/".data := by
    decide
  rw [h1, e1, check_link_status_eq]
  refine ⟨by decide, by decide, by decide⟩

/-- C5, amended: across a whole dispatcher run (with an oracle that never
raises unexpectedly), the status histogram's total count grows by exactly
the number of probe attempts performed — all probes, the non-terminal
404s that trigger the shortened-URL retry included, each contributing one
entry under its observed status code (or the sentinel 0). -/
theorem C5_histogram_total (probe : Str → ProbeResult) (test_websites : Bool)
    (hno : ∀ u, probe u ≠ .unexpected) (tasks : List (Nat × Str))
    (s : CheckState) (detailed : List (Str × Str × Nat)) (wc nwc : Nat) :
    histTotal (runAll probe test_websites tasks s detailed wc nwc).1.status_codes
        + s.probes
      = histTotal s.status_codes
          + (runAll probe test_websites tasks s detailed wc nwc).1.probes :=
  runAll_hist probe test_websites hno tasks s detailed wc nwc

theorem C5_histogram_total_witness :
    histTotal (runAll (fun _ => .status 200) true [(0, "https://a.com".data)]
        ⟨[], [], [], 0, 0⟩ [] 0 0).1.status_codes + 0
      = histTotal [] + (runAll (fun _ => .status 200) true
          [(0, "https://a.com".data)] ⟨[], [], [], 0, 0⟩ [] 0 0).1.probes :=
  C5_histogram_total (fun _ => .status 200) true (fun u h => by simp at h)
    [(0, "https://a.com".data)] ⟨[], [], [], 0, 0⟩ [] 0 0

/-- C9: an unexpected processing error inside a link's pipeline is caught
by `process_link` and converted to outcome `"Error"` with status code 0 —
it is recorded in the detailed results, returned to the aggregation loop,
and never propagated — and on this path the link's dataframe cell is left
unmodified. -/
theorem C9_unexpected_error_isolated (probe : Str → ProbeResult)
    (test_websites : Bool) (link : Str) (index : Nat) (s : CheckState)
    (detailed : List (Str × Str × Nat))
    (herr : (check_link_status probe test_websites link index s).2 = .error ()) :
    process_link probe test_websites index link s detailed
      = ((check_link_status probe test_websites link index s).1,
         detailed ++ [(link, ErrorLabel, 0)], (link, ErrorLabel)) ∧
    (check_link_status probe test_websites link index s).1.df = s.df := by
  constructor
  · unfold process_link
    cases hck : check_link_status probe test_websites link index s with
    | mk s' r =>
      rw [hck] at herr
      cases r with
      | ok pr =>
        simp at herr
      | error e =>
        rfl
  · exact (check_invariants probe test_websites (shortenDepth link) link index s
      (le_refl _)).2.2.1 herr

theorem C9_unexpected_error_isolated_witness :
    process_link (fun _ => .unexpected) true 0 "https://a.com".data
        ⟨[], [], [(0, "https://a.com".data)], 0, 0⟩ []
      = ((check_link_status (fun _ => .unexpected) true "https://a.com".data 0
            ⟨[], [], [(0, "https://a.com".data)], 0, 0⟩).1,
         [] ++ [("https://a.com".data, ErrorLabel, 0)],
         ("https://a.com".data, ErrorLabel)) ∧
    (check_link_status (fun _ => .unexpected) true "https://a.com".data 0
        ⟨[], [], [(0, "https://a.com".data)], 0, 0⟩).1.df
      = [(0, "https://a.com".data)] :=
  C9_unexpected_error_isolated (fun _ => .unexpected) true "https://a.com".data 0
    ⟨[], [], [(0, "https://a.com".data)], 0, 0⟩ []
    (by rw [check_link_status_eq]; rfl)

/-- C10: on a cache hit (entry `"Working"`), `check_link_status` returns
the pair `("Working", 200)` with a synthetic status code 200 although no
probe occurred, and leaves the whole state — histogram, dataframe cell,
cache, and ghost probe counters — unchanged; `process_link` still appends
a detailed result entry recording status code 200. -/
theorem C10_cache_hit_frame (probe : Str → ProbeResult) (test_websites : Bool)
    (link : Str) (index : Nat) (s : CheckState)
    (detailed : List (Str × Str × Nat))
    (h : dictGet? link s.verified_links = some Working) :
    check_link_status probe test_websites link index s = (s, .ok (Working, 200)) ∧
    process_link probe test_websites index link s detailed
      = (s, detailed ++ [(link, Working, 200)], (link, Working)) := by
  have h1 : check_link_status probe test_websites link index s
      = (s, .ok (Working, 200)) := by
    rw [check_link_status_eq, if_pos h]
  refine ⟨h1, ?_⟩
  unfold process_link
  rw [h1]

theorem C10_cache_hit_frame_witness :
    check_link_status (fun _ => .transportError) true "u".data 0
        ⟨[("u".data, Working)], [(404, 1)], [(0, "u".data)], 5, 2⟩
      = (⟨[("u".data, Working)], [(404, 1)], [(0, "u".data)], 5, 2⟩,
         .ok (Working, 200)) ∧
    process_link (fun _ => .transportError) true 0 "u".data
        ⟨[("u".data, Working)], [(404, 1)], [(0, "u".data)], 5, 2⟩ []
      = (⟨[("u".data, Working)], [(404, 1)], [(0, "u".data)], 5, 2⟩,
         [] ++ [("u".data, Working, 200)], ("u".data, Working)) :=
  C10_cache_hit_frame (fun _ => .transportError) true "u".data 0
    ⟨[("u".data, Working)], [(404, 1)], [(0, "u".data)], 5, 2⟩ [] (by decide)

/-- The zeta-reduced form of the per-cell scheme upgrade: the second `if`
(insecure scheme) overwrites the first (protocol-relative marker). -/
theorem update_links_to_https_cell_eq (link : Str) :
    update_links_to_https_cell link
      = if link.take 7 = "http://".data then replace_http link
        else if link.take 2 = "//".data then "https:".data ++ link
        else link := rfl

/-- The zeta-reduced form of the per-cell igshid removal. -/
theorem remove_igshid_parameter_cell_eq (link : Str) :
    remove_igshid_parameter_cell link
      = if dictGet? igshid (parse_qs (urlsplit link).query) ≠ none then
          urlunsplit { urlsplit link with
            query := urlencode (dictDelete igshid (parse_qs (urlsplit link).query)) }
        else link := rfl

theorem replace_http_no_sub : ∀ {s : Str}, hasHttpSub s = false → replace_http s = s := by
  intro s
  induction s using replace_http.induct with
  | case1 rest ih =>
    intro h
    simp [hasHttpSub] at h
  | case2 c rest h1 ih =>
    intro h
    simp only [hasHttpSub, Bool.or_eq_false_iff] at h
    rw [replace_http]
    · rw [ih h.2]
    · exact h1
  | case3 => intro h; rfl

/-- C7, counterexample: `link.replace('http://', 'https://')` substitutes
every occurrence of the insecure scheme, not only the leading prefix: a
later occurrence inside the query is rewritten too. -/
theorem C7_replaces_every_occurrence :
    update_links_to_https_cell "http://a.com/?u=http://b.com".data
        = "https://a.com/?u=https://b.com".data ∧
    update_links_to_https_cell "http://a.com/?u=http://b.com".data
        ≠ "https://a.com/?u=http://b.com".data := by
  refine ⟨by decide, by decide⟩

/-- C7, amended: for a URL starting with `"http://"`, the scheme upgrade
applies `str.replace`, which rewrites the leading prefix to `"https://"`
and every later occurrence of `"http://"` in the remainder as well; only
when the remainder contains no such occurrence is the rest of the string
left unchanged. -/
theorem C7_scheme_upgrade (x : Str) (h7 : x.take 7 = "http://".data) :
    update_links_to_https_cell x = replace_http x ∧
    update_links_to_https_cell x = "https://".data ++ replace_http (x.drop 7) ∧
    (hasHttpSub (x.drop 7) = false →
      update_links_to_https_cell x = "https://".data ++ x.drop 7) := by
  have hx : x = "http://".data ++ x.drop 7 := by
    have h := (List.take_append_drop 7 x).symm
    rw [h7] at h
    exact h
  have h1 : update_links_to_https_cell x = replace_http x := by
    rw [update_links_to_https_cell_eq, if_pos h7]
  have h2 : replace_http x = "https://".data ++ replace_http (x.drop 7) := by
    conv_lhs => rw [hx]
    rfl
  refine ⟨h1, by rw [h1, h2], ?_⟩
  intro hno
  rw [h1, h2, replace_http_no_sub hno]

theorem C7_scheme_upgrade_witness :
    update_links_to_https_cell "http://a.com/x".data
        = replace_http "http://a.com/x".data ∧
    update_links_to_https_cell "http://a.com/x".data
        = "https://".data ++ replace_http ("http://a.com/x".data.drop 7) ∧
    update_links_to_https_cell "http://a.com/x".data
        = "https://".data ++ "http://a.com/x".data.drop 7 :=
  ⟨(C7_scheme_upgrade "http://a.com/x".data (by decide)).1,
   (C7_scheme_upgrade "http://a.com/x".data (by decide)).2.1,
   (C7_scheme_upgrade "http://a.com/x".data (by decide)).2.2 (by decide)⟩

theorem update_links_to_https_cell_idem (x : Str) :
    update_links_to_https_cell (update_links_to_https_cell x)
      = update_links_to_https_cell x := by
  by_cases h7 : x.take 7 = "http://".data
  · have hx : x = "http://".data ++ x.drop 7 := by
      have h := (List.take_append_drop 7 x).symm
      rw [h7] at h
      exact h
    have h2 : replace_http x = "https://".data ++ replace_http (x.drop 7) := by
      conv_lhs => rw [hx]
      rfl
    rw [update_links_to_https_cell_eq x, if_pos h7,
      update_links_to_https_cell_eq, h2]
    rw [if_neg (by intro hc; simp at hc), if_neg (by intro hc; simp at hc)]
  · rw [update_links_to_https_cell_eq x, if_neg h7]
    by_cases h2c : x.take 2 = "//".data
    · have hx : x = '/' :: '/' :: x.drop 2 := by
        have h := (List.take_append_drop 2 x).symm
        rw [h2c] at h
        exact h
      rw [if_pos h2c, update_links_to_https_cell_eq]
      rw [if_neg ?hcond1, if_neg (by intro hc; simp at hc)]
      case hcond1 =>
        intro hc
        rw [hx] at hc
        simp at hc
    · rw [if_neg h2c, update_links_to_https_cell_eq, if_neg h7, if_neg h2c]

/-- C6, counterexample: normalization is not idempotent.  An upper-case
insecure scheme escapes the first pass's scheme upgrade, but the igshid
removal re-serializes the URL with the scheme lower-cased by `urlparse`;
the second pass then upgrades the now-literal `"http://"` prefix. -/
theorem C6_not_idempotent :
    normalize_link (normalize_link "HTTP://ex.com/?igshid=1&b=2".data)
      ≠ normalize_link "HTTP://ex.com/?igshid=1&b=2".data := by decide

/-- C6, amended: the scheme-upgrade pass is idempotent on every input, and
the full normalization is idempotent on every input whose scheme-upgraded
form carries no igshid query parameter (the removal pass is then a no-op
on both applications).  Idempotence genuinely fails when a case-variant
insecure scheme meets an igshid parameter, as the counterexample shows. -/
theorem C6_normalize_idem (x : Str)
    (hno : dictGet? igshid
      (parse_qs (urlsplit (update_links_to_https_cell x)).query) = none) :
    normalize_link (normalize_link x) = normalize_link x := by
  have hrm : remove_igshid_parameter_cell (update_links_to_https_cell x)
      = update_links_to_https_cell x := by
    rw [remove_igshid_parameter_cell_eq, if_neg (by simp [hno])]
  show remove_igshid_parameter_cell (update_links_to_https_cell
      (remove_igshid_parameter_cell (update_links_to_https_cell x)))
    = remove_igshid_parameter_cell (update_links_to_https_cell x)
  rw [hrm, update_links_to_https_cell_idem, hrm]

theorem C6_normalize_idem_witness :
    normalize_link (normalize_link "http://ex.com/a?b=2".data)
      = normalize_link "http://ex.com/a?b=2".data :=
  C6_normalize_idem "http://ex.com/a?b=2".data (by decide)

/-! ## C8: exactness of the igshid removal on well-formed queries -/

/-- C8, counterexample: a parameter with a blank value is not "left
untouched": `parse_qs` (with `keep_blank_values=False`) silently drops it,
so removing `igshid` from `?b=&igshid=1` also deletes `b=`. -/
theorem C8_blank_value_dropped :
    remove_igshid_parameter_cell "https://ex.com/a?b=&igshid=1".data
        = "https://ex.com/a".data ∧
    remove_igshid_parameter_cell "https://ex.com/a?b=&igshid=1".data
        ≠ "https://ex.com/a?b=".data :=
  ⟨by decide, by decide⟩

/-- ASCII letters and digits (the alphabet for which percent-coding is
vacuously the identity). -/
def alnum_chars : Str :=
  "abcdefghijklmnopqrstuvwxyzABCDEFGHIJKLMNOPQRSTUVWXYZ0123456789".data

/-- One decoded query pair rendered as a `name=value` field. -/
def fieldOf (kv : Str × Str) : Str := kv.1 ++ '=' :: kv.2

/-- A query string built from decoded pairs, fields joined by `'&'`. -/
def queryOf : List (Str × Str) → Str
  | [] => []
  | [kv] => fieldOf kv
  | kv :: rest => fieldOf kv ++ '&' :: queryOf rest

theorem alnum_chars_facts : ∀ c ∈ alnum_chars,
    c ≠ '&' ∧ c ≠ '=' ∧ c ≠ '%' ∧ c ≠ '+' ∧ c ≠ '#' ∧ c ≠ '?' ∧ c ≠ '/' ∧
    c ≠ ' ' ∧ c ≠ ':' ∧ quoteSafe c = true ∧ isUnsafeUrlByte c = false ∧
    isC0Space c = false := by decide

/-- Well-formedness of a decoded pair list: nonempty alphanumeric names
and values. -/
def nicePairs (ps : List (Str × Str)) : Prop :=
  ∀ kv ∈ ps, kv.1 ≠ [] ∧ kv.2 ≠ [] ∧
    (∀ c ∈ kv.1, c ∈ alnum_chars) ∧ (∀ c ∈ kv.2, c ∈ alnum_chars)

theorem unquote_no_percent : ∀ {s : Str}, (∀ c ∈ s, c ≠ '%') → unquote s = s := by
  intro s
  induction s using unquote.induct with
  | case1 => intro h; rfl
  | case2 a b rest ha hb hab ih =>
    intro h
    exact absurd rfl (h '%' (by simp))
  | case3 a b rest hab ih =>
    intro h
    exact absurd rfl (h '%' (by simp))
  | case4 c rest hne ih =>
    intro h
    rw [unquote]
    · rw [ih fun a ha => h a (by simp [ha])]
    · exact hne

theorem unquote_plus_alnum {s : Str} (h : ∀ c ∈ s, c ∈ alnum_chars) :
    unquote_plus s = s := by
  unfold unquote_plus
  have hmap : (s.map fun c => if c = '+' then ' ' else c) = s := by
    rw [show (s.map fun c => if c = '+' then ' ' else c) = s ↔ _ from
      ⟨fun hx => hx, fun hx => hx⟩]
    calc s.map (fun c => if c = '+' then ' ' else c) = s.map id := by
          refine List.map_congr_left fun a ha => ?_
          rw [if_neg (alnum_chars_facts a (h a ha)).2.2.2.1]
          rfl
      _ = s := List.map_id s
  rw [hmap, unquote_no_percent fun c hc => (alnum_chars_facts c (h c hc)).2.2.1]

theorem quote_plus_alnum : ∀ {s : Str}, (∀ c ∈ s, c ∈ alnum_chars) →
    quote_plus s = s := by
  intro s
  induction s with
  | nil => intro h; rfl
  | cons c rest ih =>
    intro h
    have hc := alnum_chars_facts c (h c (by simp))
    show quote_plus_char c ++ quote_plus rest = c :: rest
    rw [quote_plus_char, if_neg hc.2.2.2.2.2.2.2.1, if_pos hc.2.2.2.2.2.2.2.2.2.1,
      ih fun a ha => h a (by simp [ha])]
    rfl

theorem splitSep_ne_nil (sep : Char) : ∀ (l : Str), splitSep sep l ≠ [] := by
  intro l
  cases l with
  | nil => simp [splitSep]
  | cons c rest =>
    rw [splitSep]
    cases splitSep sep rest with
    | nil => simp
    | cons f fs =>
      dsimp only
      by_cases hcs : c = sep
      · rw [if_pos hcs]
        simp
      · rw [if_neg hcs]
        simp

theorem splitSep_cons_sep (sep : Char) (l : Str) :
    splitSep sep (sep :: l) = [] :: splitSep sep l := by
  rw [splitSep]
  cases hs : splitSep sep l with
  | nil => exact absurd hs (splitSep_ne_nil sep l)
  | cons f fs =>
    dsimp only
    rw [if_pos rfl]

theorem splitSep_append_no_sep {sep : Char} :
    ∀ {l₁ : Str}, (∀ c ∈ l₁, c ≠ sep) → ∀ {l₂ f : Str} {fs : List Str},
      splitSep sep l₂ = f :: fs → splitSep sep (l₁ ++ l₂) = (l₁ ++ f) :: fs := by
  intro l₁
  induction l₁ with
  | nil => intro h l₂ f fs h2; simpa using h2
  | cons c t ih =>
    intro h l₂ f fs h2
    show splitSep sep (c :: (t ++ l₂)) = ((c :: t) ++ f) :: fs
    rw [splitSep, ih (fun a ha => h a (by simp [ha])) h2]
    dsimp only
    rw [if_neg (h c (by simp))]
    simp

theorem splitSep_no_sep {sep : Char} {l : Str} (h : ∀ c ∈ l, c ≠ sep) :
    splitSep sep l = [l] := by
  have h2 : splitSep sep ([] : Str) = [] :: [] := rfl
  have := splitSep_append_no_sep h h2
  simpa using this

theorem parse_field_fieldOf {k v : Str} (hkne : k ≠ []) (hvne : v ≠ [])
    (hk : ∀ c ∈ k, c ∈ alnum_chars) (hv : ∀ c ∈ v, c ∈ alnum_chars) :
    parse_field (fieldOf (k, v)) = some (k, v) := by
  have htk : (k ++ '=' :: v).takeWhile (· ≠ '=') = k := by
    rw [takeWhile_append_all (fun a ha => by
      simp only [decide_eq_true_eq]
      exact (alnum_chars_facts a (hk a ha)).2.1) ('=' :: v)]
    simp [List.takeWhile_cons]
  have hdk : (k ++ '=' :: v).dropWhile (· ≠ '=') = '=' :: v := by
    rw [dropWhile_append_all (fun a ha => by
      simp only [decide_eq_true_eq]
      exact (alnum_chars_facts a (hk a ha)).2.1) ('=' :: v)]
    simp [List.dropWhile_cons]
  show parse_field (k ++ '=' :: v) = some (k, v)
  unfold parse_field
  rw [htk, hdk, if_neg (by simp), if_neg (by
      intro hc
      simp [List.length_append] at hc),
    if_neg (by simpa using hvne)]
  show some (unquote_plus k, unquote_plus v) = some (k, v)
  rw [unquote_plus_alnum hk, unquote_plus_alnum hv]

theorem fieldOf_no_amp {k v : Str} (hk : ∀ c ∈ k, c ∈ alnum_chars)
    (hv : ∀ c ∈ v, c ∈ alnum_chars) : ∀ c ∈ fieldOf (k, v), c ≠ '&' := by
  intro c hc
  show c ≠ '&'
  have hc2 : c ∈ k ++ '=' :: v := hc
  rw [List.mem_append, List.mem_cons] at hc2
  rcases hc2 with h | h | h
  · exact (alnum_chars_facts c (hk c h)).1
  · subst h; decide
  · exact (alnum_chars_facts c (hv c h)).1

theorem queryOf_ne_nil : ∀ {ps : List (Str × Str)}, ps ≠ [] → queryOf ps ≠ [] := by
  intro ps hne
  cases ps with
  | nil => exact absurd rfl hne
  | cons kv rest =>
    obtain ⟨k, v⟩ := kv
    cases rest with
    | nil =>
      show fieldOf (k, v) ≠ []
      show k ++ '=' :: v ≠ []
      simp
    | cons kv2 rest2 =>
      show fieldOf (k, v) ++ '&' :: queryOf (kv2 :: rest2) ≠ []
      simp

theorem queryOf_chars : ∀ {ps : List (Str × Str)}, nicePairs ps →
    ∀ c ∈ queryOf ps, c ∈ alnum_chars ∨ c = '&' ∨ c = '=' := by
  intro ps
  induction ps with
  | nil => intro _ c hc; cases hc
  | cons kv rest ih =>
    intro hn c hc
    obtain ⟨k, v⟩ := kv
    obtain ⟨_, _, hkc, hvc⟩ := hn (k, v) (by simp)
    have hfield : ∀ a ∈ fieldOf (k, v), a ∈ alnum_chars ∨ a = '&' ∨ a = '=' := by
      intro a ha
      have ha2 : a ∈ k ++ '=' :: v := ha
      rw [List.mem_append, List.mem_cons] at ha2
      rcases ha2 with h | h | h
      · exact Or.inl (hkc a h)
      · exact Or.inr (Or.inr h)
      · exact Or.inl (hvc a h)
    cases rest with
    | nil => exact hfield c hc
    | cons kv2 rest2 =>
      have hc2 : c ∈ fieldOf (k, v) ++ '&' :: queryOf (kv2 :: rest2) := hc
      rw [List.mem_append, List.mem_cons] at hc2
      rcases hc2 with h | h | h
      · exact hfield c h
      · exact Or.inr (Or.inl h)
      · exact ih (fun kv' hkv' => hn kv' (by simp [hkv'])) c h

theorem splitSep_queryOf : ∀ {ps : List (Str × Str)}, nicePairs ps → ps ≠ [] →
    splitSep '&' (queryOf ps) = ps.map fieldOf := by
  intro ps
  induction ps with
  | nil => intro _ h; exact absurd rfl h
  | cons kv rest ih =>
    intro hn _
    obtain ⟨k, v⟩ := kv
    obtain ⟨_, _, hkc, hvc⟩ := hn (k, v) (by simp)
    cases rest with
    | nil =>
      show splitSep '&' (fieldOf (k, v)) = [fieldOf (k, v)]
      exact splitSep_no_sep (fieldOf_no_amp hkc hvc)
    | cons kv2 rest2 =>
      show splitSep '&' (fieldOf (k, v) ++ '&' :: queryOf (kv2 :: rest2))
        = fieldOf (k, v) :: (kv2 :: rest2).map fieldOf
      have hrest := ih (fun kv' hkv' => hn kv' (by simp [hkv'])) (by simp)
      have hcons : splitSep '&' ('&' :: queryOf (kv2 :: rest2))
          = [] :: (kv2 :: rest2).map fieldOf := by
        rw [splitSep_cons_sep, hrest]
      rw [splitSep_append_no_sep (fieldOf_no_amp hkc hvc) hcons]
      simp

theorem filterMap_fieldOf : ∀ {ps : List (Str × Str)}, nicePairs ps →
    (ps.map fieldOf).filterMap parse_field = ps := by
  intro ps
  induction ps with
  | nil => intro _; rfl
  | cons kv rest ih =>
    intro hn
    obtain ⟨k, v⟩ := kv
    obtain ⟨hkne, hvne, hkc, hvc⟩ := hn (k, v) (by simp)
    rw [List.map_cons, List.filterMap_cons,
      parse_field_fieldOf hkne hvne hkc hvc,
      ih fun kv' hkv' => hn kv' (by simp [hkv'])]

theorem parse_qsl_queryOf {ps : List (Str × Str)} (hn : nicePairs ps)
    (hne : ps ≠ []) : parse_qsl (queryOf ps) = ps := by
  unfold parse_qsl
  rw [if_neg (queryOf_ne_nil hne), splitSep_queryOf hn hne, filterMap_fieldOf hn]

theorem dictAppend_fresh {k : Str} {v : Str} :
    ∀ {acc : List (Str × List Str)}, dictGet? k acc = none →
      dictAppend k v acc = acc ++ [(k, [v])] := by
  intro acc
  induction acc with
  | nil => intro _; rfl
  | cons p rest ih =>
    intro h
    obtain ⟨k', vs⟩ := p
    rw [dictGet?] at h
    by_cases hkk : k' = k
    · rw [if_pos hkk] at h
      cases h
    · rw [if_neg hkk] at h
      rw [dictAppend, if_neg hkk, ih h]
      rfl

theorem dictGet?_append_none {k' k : Str} {x : List Str} :
    ∀ {acc : List (Str × List Str)}, dictGet? k' acc = none → k ≠ k' →
      dictGet? k' (acc ++ [(k, x)]) = none := by
  intro acc
  induction acc with
  | nil =>
    intro _ hne
    show dictGet? k' [(k, x)] = none
    rw [dictGet?, if_neg hne]
    rfl
  | cons p rest ih =>
    intro h hne
    obtain ⟨k'', vs⟩ := p
    rw [dictGet?] at h
    by_cases hkk : k'' = k'
    · rw [if_pos hkk] at h
      cases h
    · rw [if_neg hkk] at h
      show dictGet? k' ((k'', vs) :: (rest ++ [(k, x)])) = none
      rw [dictGet?, if_neg hkk, ih h hne]

theorem foldl_dictAppend_fresh :
    ∀ {ps : List (Str × Str)} {acc : List (Str × List Str)},
      (∀ kv ∈ ps, dictGet? kv.1 acc = none) → (ps.map Prod.fst).Nodup →
      ps.foldl (fun d kv => dictAppend kv.1 kv.2 d) acc
        = acc ++ ps.map (fun kv => (kv.1, [kv.2])) := by
  intro ps
  induction ps with
  | nil => intro _ _ _; simp
  | cons kv rest ih =>
    intro acc hfresh hnodup
    obtain ⟨k, v⟩ := kv
    rw [List.foldl_cons]
    have hk : dictGet? k acc = none := hfresh (k, v) (by simp)
    have hknotin : k ∉ rest.map Prod.fst := by
      rw [List.map_cons, List.nodup_cons] at hnodup
      exact hnodup.1
    rw [show dictAppend (k, v).1 (k, v).2 acc = dictAppend k v acc from rfl,
      dictAppend_fresh hk,
      ih (fun kv' hkv' => dictGet?_append_none (hfresh kv' (by simp [hkv']))
        (fun he => hknotin (by
          rw [he]
          exact List.mem_map.mpr ⟨kv', hkv', rfl⟩)))
        (by rw [List.map_cons, List.nodup_cons] at hnodup; exact hnodup.2)]
    simp

theorem parse_qs_queryOf {ps : List (Str × Str)} (hn : nicePairs ps)
    (hnodup : (ps.map Prod.fst).Nodup) (hne : ps ≠ []) :
    parse_qs (queryOf ps) = ps.map (fun kv => (kv.1, [kv.2])) := by
  unfold parse_qs
  rw [parse_qsl_queryOf hn hne,
    @foldl_dictAppend_fresh ps [] (fun kv _ => rfl) hnodup]
  rfl

theorem dictGet?_singleton_of_mem {q : Str} :
    ∀ {ps : List (Str × Str)}, q ∈ ps.map Prod.fst →
      dictGet? q (ps.map fun kv => (kv.1, [kv.2])) ≠ none := by
  intro ps
  induction ps with
  | nil => intro h; cases h
  | cons kv rest ih =>
    intro h
    obtain ⟨k, v⟩ := kv
    show dictGet? q ((k, [v]) :: rest.map fun kv => (kv.1, [kv.2])) ≠ none
    rw [dictGet?]
    by_cases hk : k = q
    · rw [if_pos hk]
      simp
    · rw [if_neg hk]
      refine ih ?_
      rw [List.map_cons, List.mem_cons] at h
      rcases h with h | h
      · exact absurd h.symm hk
      · exact h

theorem dictDelete_singleton (q : Str) :
    ∀ {ps : List (Str × Str)}, (ps.map Prod.fst).Nodup →
      dictDelete q (ps.map fun kv => (kv.1, [kv.2]))
        = (ps.filter fun kv => kv.1 ≠ q).map (fun kv => (kv.1, [kv.2])) := by
  intro ps
  induction ps with
  | nil => intro _; rfl
  | cons kv rest ih =>
    intro hnodup
    obtain ⟨k, v⟩ := kv
    rw [List.map_cons, List.nodup_cons] at hnodup
    show dictDelete q ((k, [v]) :: rest.map fun kv => (kv.1, [kv.2])) = _
    rw [dictDelete]
    by_cases hk : k = q
    · rw [if_pos hk]
      rw [List.filter_cons_of_neg (by simp [hk])]
      have hrest : rest.filter (fun kv => kv.1 ≠ q) = rest := by
        refine List.filter_eq_self.mpr fun kv' hkv' => ?_
        simp only [decide_eq_true_eq]
        intro he
        refine hnodup.1 ?_
        rw [hk, ← he]
        exact List.mem_map.mpr ⟨kv', hkv', rfl⟩
      rw [hrest]
    · rw [if_neg hk, List.filter_cons_of_pos (by simp [hk]), List.map_cons,
        ih hnodup.2]

theorem intercalate_queryOf : ∀ (ps : List (Str × Str)),
    List.intercalate ['&'] (ps.map fieldOf) = queryOf ps := by
  intro ps
  induction ps with
  | nil => rfl
  | cons kv rest ih =>
    cases rest with
    | nil => simp [List.intercalate, List.intersperse, queryOf]
    | cons kv2 rest2 =>
      show List.intercalate ['&'] (fieldOf kv :: (kv2 :: rest2).map fieldOf)
        = fieldOf kv ++ '&' :: queryOf (kv2 :: rest2)
      rw [← ih]
      simp [List.intercalate, List.intersperse]

theorem flatMap_singleton_fields : ∀ {ps : List (Str × Str)}, nicePairs ps →
    ((ps.map fun kv => (kv.1, [kv.2])).flatMap fun kvs =>
       kvs.2.map fun v => quote_plus kvs.1 ++ '=' :: quote_plus v)
      = ps.map fieldOf := by
  intro ps
  induction ps with
  | nil => intro _; rfl
  | cons kv rest ih =>
    intro hn
    obtain ⟨k, v⟩ := kv
    obtain ⟨_, _, hkc, hvc⟩ := hn (k, v) (by simp)
    rw [List.map_cons, List.map_cons]
    show (quote_plus k ++ '=' :: quote_plus v)
        :: ((rest.map fun kv => (kv.1, [kv.2])).flatMap fun kvs =>
             kvs.2.map fun v => quote_plus kvs.1 ++ '=' :: quote_plus v)
      = fieldOf (k, v) :: rest.map fieldOf
    rw [quote_plus_alnum hkc, quote_plus_alnum hvc,
      ih fun kv' hkv' => hn kv' (by simp [hkv'])]
    rfl

theorem urlencode_map_singleton {ps : List (Str × Str)} (hn : nicePairs ps) :
    urlencode (ps.map fun kv => (kv.1, [kv.2])) = queryOf ps := by
  unfold urlencode
  rw [flatMap_singleton_fields hn, intercalate_queryOf]

theorem urlsplit_excom (q : Str)
    (hq : ∀ c ∈ q, c ∈ alnum_chars ∨ c = '&' ∨ c = '=') :
    urlsplit ("https://ex.com/p?".data ++ q)
      = ⟨"https".data, "ex.com".data, "/p".data, q, []⟩ := by
  have hlit : ∀ c ∈ "https://ex.com/p?".data, isUnsafeUrlByte c = false := by decide
  have hqsafe : ∀ c ∈ q, isUnsafeUrlByte c = false := by
    intro c hc
    rcases hq c hc with h | h | h
    · exact (alnum_chars_facts c h).2.2.2.2.2.2.2.2.2.2.1
    · subst h; decide
    · subst h; decide
  have hclean : (("https://ex.com/p?".data ++ q).dropWhile isC0Space).filter
      (fun c => !isUnsafeUrlByte c) = "https://ex.com/p?".data ++ q := by
    apply clean_id
    · right
      rfl
    · intro a ha
      rw [List.mem_append] at ha
      rcases ha with h | h
      · exact hlit a h
      · exact hqsafe a h
  rw [urlsplit_stages hclean]
  have hshape : "https://ex.com/p?".data ++ q
      = "https".data ++ ':' :: ('/' :: '/' :: ("ex.com".data ++ '/' :: 'p' :: '?' :: q)) := rfl
  have hA : splitScheme ("https://ex.com/p?".data ++ q)
      = ("https".data, '/' :: '/' :: ("ex.com".data ++ '/' :: 'p' :: '?' :: q)) := by
    rw [hshape, splitScheme_valid "https".data _ (by decide)]
    rw [show lowerStr "https".data = "https".data from by decide]
  have hB : splitNetloc ('/' :: '/' :: ("ex.com".data ++ '/' :: 'p' :: '?' :: q))
      = ("ex.com".data, '/' :: 'p' :: '?' :: q) :=
    splitNetloc_slashes "ex.com".data ('/' :: 'p' :: '?' :: q)
      (by decide) (fun _ => rfl)
  have hC : splitOnFirst '#' ('/' :: 'p' :: '?' :: q)
      = ('/' :: 'p' :: '?' :: q, []) := by
    refine splitOnFirst_of_not_mem ?_
    intro hmem
    rw [List.mem_cons, List.mem_cons, List.mem_cons] at hmem
    rcases hmem with h | h | h | h
    · cases h
    · cases h
    · cases h
    · rcases hq '#' h with h2 | h2 | h2
      · exact absurd h2 (by decide)
      · cases h2
      · cases h2
  have hD : splitOnFirst '?' ('/' :: 'p' :: '?' :: q) = ("/p".data, q) := by
    unfold splitOnFirst
    simp [List.takeWhile_cons, List.dropWhile_cons]
  rw [hA, hB, hC, hD]

theorem urlunsplit_excom (newq : Str) (h : newq ≠ []) :
    urlunsplit ⟨"https".data, "ex.com".data, "/p".data, newq, []⟩
      = "https://ex.com/p?".data ++ newq := by
  have he : urlunsplit ⟨"https".data, "ex.com".data, "/p".data, newq, []⟩
      = if newq ≠ [] then "https://ex.com/p".data ++ '?' :: newq
        else "https://ex.com/p".data := rfl
  rw [he, if_pos h]
  rfl

/-- C8, amended: on a well-formed query — nonempty alphanumeric names and
values, pairwise-distinct names, an igshid parameter present along with at
least one other parameter — the removal deletes exactly the igshid
parameter and re-serializes the remaining parameters verbatim, in their
original relative order.  (The counterexample shows the well-formedness
conditions are needed: parameters with blank values are silently dropped
by `parse_qs`, and duplicate names would be regrouped at their first
occurrence, so such parameters are not left untouched.) -/
theorem C8_igshid_removal (ps : List (Str × Str)) (hn : nicePairs ps)
    (hnodup : (ps.map Prod.fst).Nodup) (hig : igshid ∈ ps.map Prod.fst)
    (hrem : ps.filter (fun kv => kv.1 ≠ igshid) ≠ []) :
    remove_igshid_parameter_cell ("https://ex.com/p?".data ++ queryOf ps)
      = "https://ex.com/p?".data
          ++ queryOf (ps.filter fun kv => kv.1 ≠ igshid) := by
  have hne : ps ≠ [] := by rintro rfl; simp at hig
  have hnf : nicePairs (ps.filter fun kv => kv.1 ≠ igshid) := fun kv hkv =>
    hn kv (List.mem_of_mem_filter hkv)
  have hsp := urlsplit_excom (queryOf ps) (queryOf_chars hn)
  rw [remove_igshid_parameter_cell_eq, hsp]
  dsimp only
  rw [parse_qs_queryOf hn hnodup hne,
    if_pos (dictGet?_singleton_of_mem hig),
    dictDelete_singleton igshid hnodup, urlencode_map_singleton hnf]
  exact urlunsplit_excom _ (queryOf_ne_nil hrem)

theorem C8_igshid_removal_witness :
    remove_igshid_parameter_cell ("https://ex.com/p?".data
        ++ queryOf [("a".data, "1".data), (igshid, "9".data), ("b".data, "2".data)])
      = "https://ex.com/p?".data
          ++ queryOf ([("a".data, "1".data), (igshid, "9".data), ("b".data, "2".data)].filter
              fun kv => kv.1 ≠ igshid) :=
  C8_igshid_removal [("a".data, "1".data), (igshid, "9".data), ("b".data, "2".data)]
    (by unfold nicePairs; decide) (by decide) (by decide) (by decide)
